import Mathlib

/-!
Verification development for the screenplay breakdown system.

Shallow embedding of the core components of the repository:
scene splitting, header parsing, prop classification, the cross-scene
continuity graph, the batch orchestrator loop, and the advanced job
manager (priority queue, cache, status updates).

Modelling conventions, used throughout:
* Python strings are Lean `String`; `x in s` (substring test) is `strHas`.
* Python `\s` is `pyWS` (space, tab, newline, carriage return, vertical
  tab, form feed); `\d` is `pyDigit` and also accepts the Arabic-Indic
  digits U+0660 to U+0669 as Python `\d` does.
* `str.lower()` is `lowerStr` (ASCII case folding; the Arabic letters used
  by the source have no case).
* Regular expressions in the source are alternations of literal words,
  optionally with `\s+` separators and negative lookaheads; each is
  embedded by a dedicated matcher (`strHas`, `seqWSSearch`, `nlaWSSearch`,
  `wsThen`) rather than a general regex engine.
-/

/-- Python whitespace class `\s` for the ASCII range used by the source. -/
def pyWS (c : Char) : Bool :=
  c == ' ' || c == '\t' || c == '\n' || c == '\r' || c == '\x0b' || c == '\x0c'

/-- Python digit class `\d`: ASCII digits plus Arabic-Indic digits. -/
def pyDigit (c : Char) : Bool :=
  c.isDigit || (0x660 ≤ c.toNat && c.toNat ≤ 0x669)

/-- Numeric value of a digit accepted by `pyDigit`. -/
def digitVal (c : Char) : Nat :=
  if 0x660 ≤ c.toNat && c.toNat ≤ 0x669 then c.toNat - 0x660 else c.toNat - 48

/-- Numeric value of a digit string, as Python `int` parses it. -/
def numVal (s : String) : Nat :=
  s.data.foldl (fun a c => a * 10 + digitVal c) 0

/-- `str.lower()`; ASCII case folding (Arabic has no case). -/
def lowerStr (s : String) : String := String.mk (s.data.map Char.toLower)

/-- Leading-edge strip of Python `str.strip()`. -/
def stripL (cs : List Char) : List Char := cs.dropWhile pyWS

/-- Python `str.strip()` on a character list. -/
def stripLR (cs : List Char) : List Char :=
  ((cs.dropWhile pyWS).reverse.dropWhile pyWS).reverse

/-- Python `str.strip()`. -/
def pyStrip (s : String) : String := String.mk (stripLR s.data)

/-- Does `needle` occur at the start of `hay`?  (Anchored literal match.) -/
def litPre : List Char → List Char → Bool
  | [], _ => true
  | _ :: _, [] => false
  | a :: as, b :: bs => a == b && litPre as bs

/-- Does `needle` occur anywhere in `hay`?  Models `re.search` of a literal
and the Python substring test `needle in hay`. -/
def subSearch (needle : List Char) : List Char → Bool
  | [] => litPre needle []
  | c :: rest => litPre needle (c :: rest) || subSearch needle rest

/-- Python `needle in hay` on strings. -/
def strHas (hay needle : String) : Bool := subSearch needle.data hay.data

/-- Does `\s+` followed by the literal `b` match at the start of `cs`?
`\s+` is greedy; every `b` used by the source starts with a non-whitespace
character, so consuming the whole whitespace run is exact. -/
def wsThen (b : List Char) : List Char → Bool
  | [] => false
  | c :: rest => pyWS c && litPre b ((c :: rest).dropWhile pyWS)

/-- Does `\s+ b \s+ c` match at the start of the list?  Used for the
lookahead `\s+محمول\s+آلي`. -/
def wsThenWS (b c : List Char) (r : List Char) : Bool :=
  wsThen b r && wsThen c ((r.dropWhile pyWS).drop b.length)

/-- `re.search` for `a\s+b` (literal, whitespace run, literal). -/
def seqWSSearch (a b : List Char) : List Char → Bool
  | [] => false
  | c :: rest =>
    (litPre a (c :: rest) && wsThen b ((c :: rest).drop a.length)) ||
      seqWSSearch a b rest

/-- `re.search` for `a(?!\s+b)`: an occurrence of `a` not followed by
`\s+` and the literal `b`. -/
def nlaWSSearch (a b : List Char) : List Char → Bool
  | [] => false
  | c :: rest =>
    (litPre a (c :: rest) && !(wsThen b ((c :: rest).drop a.length))) ||
      nlaWSSearch a b rest

/-- `re.search` for `a\s*b` (literal, optional whitespace run, literal). -/
def wsStarSearch (a b : List Char) : List Char → Bool
  | [] => false
  | c :: rest =>
    (litPre a (c :: rest) &&
      litPre b (((c :: rest).drop a.length).dropWhile pyWS)) ||
      wsStarSearch a b rest

/-- Boolean membership through `BEq`, used to state decidable facts about
concrete string lists. -/
def memB (x : String) (l : List String) : Bool := l.any (fun y => y == x)

theorem memB_iff (x : String) (l : List String) : memB x l = true ↔ x ∈ l := by
  simp [memB, List.any_eq_true]

/-!
## Prop classifier (`PropClassifier`, src/ultimate_breakdown_system.py)

`_classify_wheelchair` scores vehicle-usage and medical-usage context
keywords; `classify_prop` handles the wheelchair special case and otherwise
walks the `TAXONOMY` dictionary in order props, set_dressing, vehicles.
-/

/-- Vehicle-usage context indicators of `_classify_wheelchair`. -/
def vehicleIndicators : List String := ["يدفع", "سرعة", "يتحرك", "طريق", "شارع"]

/-- Medical-usage context indicators of `_classify_wheelchair`. -/
def medicalIndicators : List String := ["طبي", "مريض", "يجلس", "مشلول", "إعاقة"]

/-- `sum(1 for ind in indicators if ind in context)`. -/
def indicatorScore (inds : List String) (context : String) : Nat :=
  (inds.filter (fun i => strHas context i)).length

/-- `_classify_wheelchair(context)`: vehicles only when the vehicle score is
strictly greater than the medical score AND at least 2; otherwise props. -/
def classifyWheelchair (context : String) : String × String :=
  let vehicleScore := indicatorScore vehicleIndicators context
  let medicalScore := indicatorScore medicalIndicators context
  if vehicleScore > medicalScore ∧ 2 ≤ vehicleScore then
    ("vehicles", "كرسي متحرك")
  else
    ("props", "كرسي متحرك طبي")

/-- `re.search` for `a(?!\s+b\s+c)`: `a` not followed by whitespace, `b`,
whitespace, `c` (the lookahead of the telephone pattern). -/
def nlaWSSearch2 (a b c : List Char) : List Char → Bool
  | [] => false
  | ch :: rest =>
    (litPre a (ch :: rest) && !(wsThenWS b c ((ch :: rest).drop a.length))) ||
      nlaWSSearch2 a b c rest

/-- One category of `PropClassifier.TAXONOMY`: name, context keywords,
item patterns, and (for props) the medical-device patterns. -/
structure TaxCat where
  name : String
  keywords : List String
  patterns : List (String → Bool)
  medicalDevices : List (String → Bool)

/-- `TAXONOMY['props']`.  Patterns embed, in order:
`ظرف|مظروف`, `هاتف|موبايل|تليفون(?!\s+محمول\s+آلي)`, `مجلة|صحيفة`,
`حقيبة|شنطة`, `كأس|كوب|فنجان`, `مفتاح|مفاتيح`, `نظارة|نظارات`,
`ساعة\s+(?:يد|حائط)`; medical devices: `كرسي\s+متحرك(?:\s+طبي)?`
(the optional tail cannot change whether a search succeeds),
`عكاز|عكازة`, `حبوب|دواء|علاج`. -/
def taxPropsCat : TaxCat where
  name := "props"
  keywords := ["يمسك", "يأخذ", "يناول", "يحمل", "محمول", "صغير", "خفيف", "في يده"]
  patterns := [
    fun s => strHas s "ظرف" || strHas s "مظروف",
    fun s => strHas s "هاتف" || strHas s "موبايل" ||
      nlaWSSearch2 "تليفون".data "محمول".data "آلي".data s.data,
    fun s => strHas s "مجلة" || strHas s "صحيفة",
    fun s => strHas s "حقيبة" || strHas s "شنطة",
    fun s => strHas s "كأس" || strHas s "كوب" || strHas s "فنجان",
    fun s => strHas s "مفتاح" || strHas s "مفاتيح",
    fun s => strHas s "نظارة" || strHas s "نظارات",
    fun s => seqWSSearch "ساعة".data "يد".data s.data ||
      seqWSSearch "ساعة".data "حائط".data s.data]
  medicalDevices := [
    fun s => seqWSSearch "كرسي".data "متحرك".data s.data,
    fun s => strHas s "عكاز" || strHas s "عكازة",
    fun s => strHas s "حبوب" || strHas s "دواء" || strHas s "علاج"]

/-- `TAXONOMY['set_dressing']`.  Patterns embed, in order:
`كرسي(?!\s+متحرك)`, `طاولة|منضدة`, `مرآة|مراية`, `سرير`, `خزانة|دولاب`,
`رف|أرفف`, `لوحة|لوحات`, `ستارة|ستائر`. -/
def taxSdCat : TaxCat where
  name := "set_dressing"
  keywords := ["يجلس على", "أمام", "خلف", "بجوار", "ثابت", "ديكور", "أثاث"]
  patterns := [
    fun s => nlaWSSearch "كرسي".data "متحرك".data s.data,
    fun s => strHas s "طاولة" || strHas s "منضدة",
    fun s => strHas s "مرآة" || strHas s "مراية",
    fun s => strHas s "سرير",
    fun s => strHas s "خزانة" || strHas s "دولاب",
    fun s => strHas s "رف" || strHas s "أرفف",
    fun s => strHas s "لوحة" || strHas s "لوحات",
    fun s => strHas s "ستارة" || strHas s "ستائر"]
  medicalDevices := []

/-- `TAXONOMY['vehicles']`.  Patterns embed, in order: `سيارة(?!\s+لعبة)`,
`دراجة(?:\s+نارية|\s+بخارية)?` (optional tail cannot change search
success), `طائرة`, `قارب|مركب`, `حافلة|أتوبيس`. -/
def taxVehCat : TaxCat where
  name := "vehicles"
  keywords := ["يدخل إلى", "يقود", "يركب", "عجلات", "محرك", "يتحرك", "سرعة"]
  patterns := [
    fun s => nlaWSSearch "سيارة".data "لعبة".data s.data,
    fun s => strHas s "دراجة",
    fun s => strHas s "طائرة",
    fun s => strHas s "قارب" || strHas s "مركب",
    fun s => strHas s "حافلة" || strHas s "أتوبيس"]
  medicalDevices := []

/-- The `enhancements['props']` lookup table of `_enhance_item_name`. -/
def propEnhancements : List (String × String) :=
  [("ظرف", "ظرف بريدي"), ("هاتف", "هاتف محمول"), ("موبايل", "هاتف محمول"),
   ("حاسب", "حاسب آلي محمول"), ("لابتوب", "حاسب آلي محمول (لابتوب)")]

/-- `_enhance_item_name(item, category)`: for props, the first table key
occurring in the lowercased stripped item gives the enhanced name;
otherwise (and for every other category) the item is returned unchanged. -/
def enhanceItemName (item category : String) : String :=
  let itemL := pyStrip (lowerStr item)
  if category == "props" then
    match propEnhancements.find? (fun kv => strHas itemL kv.1) with
    | some kv => kv.2
    | none => item
  else item

/-- `any(kw in context_lower for kw in rules['keywords'])`. -/
def ctxHasAny (kws : List String) (ctxL : String) : Bool :=
  kws.any (fun kw => strHas ctxL kw)

/-- One iteration of the `TAXONOMY` loop of `classify_prop`: if some item
pattern matches and the context keyword check passes (or the category is
props, for which the keyword check is not required), that category wins;
then the medical-device patterns are tried for props.  The keyword check
does not depend on which pattern matched, so the per-pattern loop of the
source reduces to a single `any`. -/
def tryCategory (cat : TaxCat) (item itemL : String) (kwMatch : Bool) :
    Option (String × String) :=
  if cat.patterns.any (fun p => p itemL) && (kwMatch || cat.name == "props") then
    some (cat.name, enhanceItemName item cat.name)
  else if cat.name == "props" && cat.medicalDevices.any (fun p => p itemL) then
    some ("props", enhanceItemName item "props")
  else none

/-- `classify_prop` with the three context keyword checks and the
wheelchair result supplied as arguments (they are functions of the context
only, computed in `classifyProp` below). -/
def classifyPropCore (item itemL : String) (kwProps kwSd kwVeh : Bool)
    (wheelRes : String × String) : String × String :=
  if seqWSSearch "كرسي".data "متحرك".data itemL.data then wheelRes
  else
    match [(taxPropsCat, kwProps), (taxSdCat, kwSd), (taxVehCat, kwVeh)].findSome?
        (fun cw => tryCategory cw.1 item itemL cw.2) with
    | some r => r
    | none => ("props", item)

/-- `PropClassifier.classify_prop(item, context)`. -/
def classifyProp (item context : String) : String × String :=
  let itemL := lowerStr item
  let ctxL := lowerStr context
  classifyPropCore item itemL
    (ctxHasAny taxPropsCat.keywords ctxL)
    (ctxHasAny taxSdCat.keywords ctxL)
    (ctxHasAny taxVehCat.keywords ctxL)
    (classifyWheelchair ctxL)

theorem classify_env_item (ctx : String) :
    classifyProp "ظرف" ctx = ("props", "ظرف بريدي") := by
  simp only [classifyProp]
  cases ctxHasAny taxPropsCat.keywords (lowerStr ctx) <;>
    cases ctxHasAny taxSdCat.keywords (lowerStr ctx) <;>
      cases ctxHasAny taxVehCat.keywords (lowerStr ctx) <;> rfl

theorem classify_phone_item (ctx : String) :
    classifyProp "هاتف محمول" ctx = ("props", "هاتف محمول") := by
  simp only [classifyProp]
  cases ctxHasAny taxPropsCat.keywords (lowerStr ctx) <;>
    cases ctxHasAny taxSdCat.keywords (lowerStr ctx) <;>
      cases ctxHasAny taxVehCat.keywords (lowerStr ctx) <;> rfl

theorem classify_computer_item (ctx : String) :
    classifyProp "حاسب آلي" ctx = ("props", "حاسب آلي") := by
  simp only [classifyProp]
  cases ctxHasAny taxPropsCat.keywords (lowerStr ctx) <;>
    cases ctxHasAny taxSdCat.keywords (lowerStr ctx) <;>
      cases ctxHasAny taxVehCat.keywords (lowerStr ctx) <;> rfl

theorem classify_magazines_item (ctx : String) :
    classifyProp "مجلات" ctx = ("props", "مجلات") := by
  simp only [classifyProp]
  cases ctxHasAny taxPropsCat.keywords (lowerStr ctx) <;>
    cases ctxHasAny taxSdCat.keywords (lowerStr ctx) <;>
      cases ctxHasAny taxVehCat.keywords (lowerStr ctx) <;> rfl

theorem classify_bag_item (ctx : String) :
    classifyProp "حقيبة" ctx = ("props", "حقيبة") := by
  simp only [classifyProp]
  cases ctxHasAny taxPropsCat.keywords (lowerStr ctx) <;>
    cases ctxHasAny taxSdCat.keywords (lowerStr ctx) <;>
      cases ctxHasAny taxVehCat.keywords (lowerStr ctx) <;> rfl

theorem classify_cassette_item (ctx : String) :
    classifyProp "كاسيت" ctx = ("props", "كاسيت") := by
  simp only [classifyProp]
  cases ctxHasAny taxPropsCat.keywords (lowerStr ctx) <;>
    cases ctxHasAny taxSdCat.keywords (lowerStr ctx) <;>
      cases ctxHasAny taxVehCat.keywords (lowerStr ctx) <;> rfl

theorem classify_picture_item (ctx : String) :
    classifyProp "صورة" ctx = ("props", "صورة") := by
  simp only [classifyProp]
  cases ctxHasAny taxPropsCat.keywords (lowerStr ctx) <;>
    cases ctxHasAny taxSdCat.keywords (lowerStr ctx) <;>
      cases ctxHasAny taxVehCat.keywords (lowerStr ctx) <;> rfl

theorem classify_wheelchair_item (ctx : String) :
    classifyProp "كرسي متحرك" ctx = ("vehicles", "كرسي متحرك") ∨
    classifyProp "كرسي متحرك" ctx = ("props", "كرسي متحرك طبي") := by
  simp only [classifyProp, classifyPropCore]
  rw [show seqWSSearch "كرسي".data "متحرك".data (lowerStr "كرسي متحرك").data = true
    from rfl]
  simp only [if_true, classifyWheelchair]
  split
  · exact Or.inl rfl
  · exact Or.inr rfl

/-!
## Prop extraction (`_extract_and_classify_props` and the set-dressing part
of `_rule_based_enrichment`, src/ultimate_breakdown_system.py)
-/

/-- The `prop_patterns` table of `_extract_and_classify_props`: candidate
name and the text pattern that triggers it.  Embedded patterns, in order:
`ظرف|مظروف`, `هاتف|موبايل|تليفون(?!\s+آلي)`,
`لابتوب|حاسب\s*(?:آلي|الي)|كمبيوتر`, `مجلة|مجلات`, `حقيبة|شنطة`,
`كاسيت|راديو`, `كرسي\s+متحرك`, `صورة|صور`. -/
def propPatterns : List (String × (String → Bool)) := [
  ("ظرف", fun t => strHas t "ظرف" || strHas t "مظروف"),
  ("هاتف محمول", fun t => strHas t "هاتف" || strHas t "موبايل" ||
    nlaWSSearch "تليفون".data "آلي".data t.data),
  ("حاسب آلي", fun t => strHas t "لابتوب" ||
    wsStarSearch "حاسب".data "آلي".data t.data ||
    wsStarSearch "حاسب".data "الي".data t.data || strHas t "كمبيوتر"),
  ("مجلات", fun t => strHas t "مجلة" || strHas t "مجلات"),
  ("حقيبة", fun t => strHas t "حقيبة" || strHas t "شنطة"),
  ("كاسيت", fun t => strHas t "كاسيت" || strHas t "راديو"),
  ("كرسي متحرك", fun t => seqWSSearch "كرسي".data "متحرك".data t.data),
  ("صورة", fun t => strHas t "صورة" || strHas t "صور")]

/-- One iteration of `_extract_and_classify_props`: a matched candidate is
classified with the lowercased scene text as context; a props result is
appended to the props list, a vehicles result to the vehicles field
(modelled as a list; the source renders it as a comma-joined string), and
a set_dressing result is skipped — the source comment defers set dressing
to `_rule_based_enrichment`. -/
def extractStep (textL : String) (acc : List String × List String)
    (np : String × (String → Bool)) : List String × List String :=
  if np.2 textL then
    let r := classifyProp np.1 textL
    if r.1 == "props" then (acc.1 ++ [r.2], acc.2)
    else if r.1 == "vehicles" then (acc.1, acc.2 ++ [r.2])
    else acc
  else acc

/-- `_extract_and_classify_props(text)`: `(props_list, vehicles)`. -/
def extractClassifyProps (text : String) : List String × List String :=
  propPatterns.foldl (extractStep (lowerStr text)) ([], [])

/-- `list(dict.fromkeys(l))`: deduplication keeping first occurrences. -/
def firstDedup (l : List String) : List String :=
  l.foldl (fun acc x => if x ∈ acc then acc else acc ++ [x]) []

/-- The `dressing_patterns` table of `_rule_based_enrichment`.  Embedded
patterns, in order: `مرآة|مراية`, `كرسي(?!\s+متحرك)`, `طاولة|منضدة`,
`سرير`, `خزانة|دولاب`. -/
def dressingPatterns : List (String × (String → Bool)) := [
  ("مرآة", fun t => strHas t "مرآة" || strHas t "مراية"),
  ("كرسي", fun t => nlaWSSearch "كرسي".data "متحرك".data t.data),
  ("طاولة", fun t => strHas t "طاولة" || strHas t "منضدة"),
  ("سرير", fun t => strHas t "سرير"),
  ("خزانة", fun t => strHas t "خزانة" || strHas t "دولاب")]

/-- The set-dressing element list built by `_rule_based_enrichment`:
pattern hits, then location-derived additions, then deduplication. -/
def setDressingElements (text location : String) : List String :=
  let textL := lowerStr text
  let base := (dressingPatterns.filter (fun p => p.2 textL)).map (fun p => p.1)
  let locL := lowerStr location
  let extra :=
    if strHas locL "مكتب" then ["مكتب مدير", "كراسي", "أرفف"]
    else if strHas locL "غرفة مكياج" then ["مرآة بإضاءة", "كرسي مكياج", "طاولة أدوات"]
    else if strHas locL "منزل" || strHas locL "غرفة" then
      (if strHas locL "نوم" then ["سرير", "خزانة", "إضاءة جانبية"]
       else ["أثاث منزلي"])
    else if strHas locL "فيلا" then ["أثاث راقٍ", "ديكور فاخر"]
    else []
  firstDedup (base ++ extra)

/-- The only values `_extract_and_classify_props` can place in the props
list: the classification results of the eight candidates. -/
def extractPNames : List String :=
  ["ظرف بريدي", "هاتف محمول", "حاسب آلي", "مجلات", "حقيبة", "كاسيت", "صورة",
   "كرسي متحرك طبي"]

/-- The only value the extraction can place in the vehicles field. -/
def extractVNames : List String := ["كرسي متحرك"]

/-- Every element the rule-based enrichment can put into set dressing. -/
def dressingNames : List String :=
  ["مرآة", "كرسي", "طاولة", "سرير", "خزانة", "مكتب مدير", "كراسي", "أرفف",
   "مرآة بإضاءة", "كرسي مكياج", "طاولة أدوات", "إضاءة جانبية", "أثاث منزلي",
   "أثاث راقٍ", "ديكور فاخر"]

theorem sub_of_allmem {l1 l2 : List String}
    (h : l1.all (fun a => memB a l2) = true) : ∀ x, x ∈ l1 → x ∈ l2 :=
  fun x hx => (memB_iff _ _).mp (List.all_eq_true.mp h x hx)

theorem disj_of_allnot {l1 l2 : List String}
    (h : l1.all (fun a => !(memB a l2)) = true) :
    ∀ x, x ∈ l1 → x ∈ l2 → False := by
  intro x h1 h2
  have hb := List.all_eq_true.mp h x h1
  rw [Bool.not_eq_true'] at hb
  rw [(memB_iff x l2).mpr h2] at hb
  exact Bool.noConfusion hb

theorem candidate_classified (name : String)
    (hn : name ∈ propPatterns.map (fun p => p.1)) (ctx : String) :
    ((classifyProp name ctx).1 = "props" ∧
      (classifyProp name ctx).2 ∈ extractPNames) ∨
    classifyProp name ctx = ("vehicles", "كرسي متحرك") := by
  simp only [propPatterns, List.map_cons, List.map_nil, List.mem_cons,
    List.not_mem_nil, or_false] at hn
  rcases hn with rfl | rfl | rfl | rfl | rfl | rfl | rfl | rfl
  · exact Or.inl (by rw [classify_env_item]; exact ⟨rfl, by decide⟩)
  · exact Or.inl (by rw [classify_phone_item]; exact ⟨rfl, by decide⟩)
  · exact Or.inl (by rw [classify_computer_item]; exact ⟨rfl, by decide⟩)
  · exact Or.inl (by rw [classify_magazines_item]; exact ⟨rfl, by decide⟩)
  · exact Or.inl (by rw [classify_bag_item]; exact ⟨rfl, by decide⟩)
  · exact Or.inl (by rw [classify_cassette_item]; exact ⟨rfl, by decide⟩)
  · rcases classify_wheelchair_item ctx with h | h
    · exact Or.inr h
    · exact Or.inl (by rw [h]; exact ⟨rfl, by decide⟩)
  · exact Or.inl (by rw [classify_picture_item]; exact ⟨rfl, by decide⟩)

theorem extractStep_mem_p (textL : String) (acc : List String × List String)
    (np : String × (String → Bool)) (x : String)
    (hx : x ∈ (extractStep textL acc np).1) :
    x ∈ acc.1 ∨
      ((classifyProp np.1 textL).1 = "props" ∧
        x = (classifyProp np.1 textL).2) := by
  simp only [extractStep] at hx
  split at hx
  · split at hx
    · rcases List.mem_append.mp hx with h | h
      · exact Or.inl h
      · rename_i hc
        exact Or.inr ⟨beq_iff_eq.mp hc, List.mem_singleton.mp h⟩
    · split at hx
      · exact Or.inl hx
      · exact Or.inl hx
  · exact Or.inl hx

theorem extractStep_mem_v (textL : String) (acc : List String × List String)
    (np : String × (String → Bool)) (x : String)
    (hx : x ∈ (extractStep textL acc np).2) :
    x ∈ acc.2 ∨
      ((classifyProp np.1 textL).1 = "vehicles" ∧
        x = (classifyProp np.1 textL).2) := by
  simp only [extractStep] at hx
  split at hx
  · split at hx
    · exact Or.inl hx
    · split at hx
      · rcases List.mem_append.mp hx with h | h
        · exact Or.inl h
        · rename_i hc
          exact Or.inr ⟨beq_iff_eq.mp hc, List.mem_singleton.mp h⟩
      · exact Or.inl hx
  · exact Or.inl hx

theorem extractFold_mem_p (textL : String) :
    ∀ (pats : List (String × (String → Bool))) (acc : List String × List String)
      (x : String), x ∈ (pats.foldl (extractStep textL) acc).1 →
      x ∈ acc.1 ∨ ∃ np ∈ pats, (classifyProp np.1 textL).1 = "props" ∧
        x = (classifyProp np.1 textL).2 := by
  intro pats
  induction pats with
  | nil => intro acc x hx; exact Or.inl hx
  | cons np rest ih =>
    intro acc x hx
    rw [List.foldl_cons] at hx
    rcases ih _ x hx with h | ⟨np', hnp', h⟩
    · rcases extractStep_mem_p textL acc np x h with h' | h'
      · exact Or.inl h'
      · exact Or.inr ⟨np, List.mem_cons_self np rest, h'⟩
    · exact Or.inr ⟨np', List.mem_cons_of_mem np hnp', h⟩

theorem extractFold_mem_v (textL : String) :
    ∀ (pats : List (String × (String → Bool))) (acc : List String × List String)
      (x : String), x ∈ (pats.foldl (extractStep textL) acc).2 →
      x ∈ acc.2 ∨ ∃ np ∈ pats, (classifyProp np.1 textL).1 = "vehicles" ∧
        x = (classifyProp np.1 textL).2 := by
  intro pats
  induction pats with
  | nil => intro acc x hx; exact Or.inl hx
  | cons np rest ih =>
    intro acc x hx
    rw [List.foldl_cons] at hx
    rcases ih _ x hx with h | ⟨np', hnp', h⟩
    · rcases extractStep_mem_v textL acc np x h with h' | h'
      · exact Or.inl h'
      · exact Or.inr ⟨np, List.mem_cons_self np rest, h'⟩
    · exact Or.inr ⟨np', List.mem_cons_of_mem np hnp', h⟩

theorem extractStep_mono (textL : String) (acc : List String × List String)
    (np : String × (String → Bool)) (x : String) :
    (x ∈ acc.1 → x ∈ (extractStep textL acc np).1) ∧
    (x ∈ acc.2 → x ∈ (extractStep textL acc np).2) := by
  constructor <;> intro hx <;> simp only [extractStep] <;> split <;>
    first
      | exact hx
      | (split
         · exact List.mem_append.mpr (Or.inl hx)
         · split
           · exact hx
           · exact hx)
      | (split
         · exact hx
         · split
           · exact List.mem_append.mpr (Or.inl hx)
           · exact hx)

theorem extractFold_mono (textL : String) :
    ∀ (pats : List (String × (String → Bool))) (acc : List String × List String)
      (x : String),
      (x ∈ acc.1 → x ∈ (pats.foldl (extractStep textL) acc).1) ∧
      (x ∈ acc.2 → x ∈ (pats.foldl (extractStep textL) acc).2) := by
  intro pats
  induction pats with
  | nil => intro acc x; exact ⟨id, id⟩
  | cons np rest ih =>
    intro acc x
    rw [List.foldl_cons]
    exact ⟨fun hx => (ih _ x).1 ((extractStep_mono textL acc np x).1 hx),
           fun hx => (ih _ x).2 ((extractStep_mono textL acc np x).2 hx)⟩

theorem extractFold_complete (textL : String) :
    ∀ (pats : List (String × (String → Bool))) (acc : List String × List String)
      (np : String × (String → Bool)), np ∈ pats → np.2 textL = true →
      ((classifyProp np.1 textL).1 = "props" →
        (classifyProp np.1 textL).2 ∈ (pats.foldl (extractStep textL) acc).1) ∧
      ((classifyProp np.1 textL).1 = "vehicles" →
        (classifyProp np.1 textL).2 ∈ (pats.foldl (extractStep textL) acc).2) := by
  intro pats
  induction pats with
  | nil => intro acc np h; exact absurd h (List.not_mem_nil np)
  | cons np' rest ih =>
    intro acc np hmem hmatch
    rw [List.foldl_cons]
    rcases List.mem_cons.mp hmem with rfl | hr
    · constructor
      · intro hcat
        refine (extractFold_mono textL rest _ _).1 ?_
        simp only [extractStep, hmatch, if_true, hcat]
        simp
      · intro hcat
        refine (extractFold_mono textL rest _ _).2 ?_
        simp only [extractStep, hmatch, if_true, hcat]
        simp
    · exact ih _ np hr hmatch

theorem firstDedup_sub :
    ∀ (l : List String) (x : String), x ∈ firstDedup l → x ∈ l := by
  have aux : ∀ (l acc : List String) (x : String),
      x ∈ l.foldl (fun acc y => if y ∈ acc then acc else acc ++ [y]) acc →
      x ∈ acc ∨ x ∈ l := by
    intro l
    induction l with
    | nil => intro acc x hx; exact Or.inl hx
    | cons a rest ih =>
      intro acc x hx
      rw [List.foldl_cons] at hx
      rcases ih _ x hx with h | h
      · by_cases ha : a ∈ acc
        · rw [if_pos ha] at h; exact Or.inl h
        · rw [if_neg ha] at h
          rcases List.mem_append.mp h with h' | h'
          · exact Or.inl h'
          · exact Or.inr (List.mem_cons.mpr (Or.inl (List.mem_singleton.mp h')))
      · exact Or.inr (List.mem_cons_of_mem a h)
  intro l x hx
  rcases aux l [] x hx with h | h
  · exact absurd h (List.not_mem_nil x)
  · exact h

theorem setDressing_sub (text location x : String)
    (hx : x ∈ setDressingElements text location) : x ∈ dressingNames := by
  simp only [setDressingElements] at hx
  have hx' := firstDedup_sub _ x hx
  rcases List.mem_append.mp hx' with h | h
  · rcases List.mem_map.mp h with ⟨p, hp, rfl⟩
    have hp' : p ∈ dressingPatterns := (List.mem_filter.mp hp).1
    have : p.1 ∈ dressingPatterns.map (fun p => p.1) := List.mem_map_of_mem _ hp'
    simp only [dressingPatterns, List.map_cons, List.map_nil, List.mem_cons,
      List.not_mem_nil, or_false] at this
    rcases this with h1 | h1 | h1 | h1 | h1 <;> rw [h1] <;> decide
  · split at h
    · exact sub_of_allmem (by decide) x h
    · split at h
      · exact sub_of_allmem (by decide) x h
      · split at h
        · split at h
          · exact sub_of_allmem (by decide) x h
          · exact sub_of_allmem (by decide) x h
        · split at h
          · exact sub_of_allmem (by decide) x h
          · exact absurd h (List.not_mem_nil x)

theorem extract_p_names (text : String) :
    ∀ x, x ∈ (extractClassifyProps text).1 → x ∈ extractPNames := by
  intro x hx
  rcases extractFold_mem_p (lowerStr text) propPatterns ([], []) x hx with
    h | ⟨np, hnp, hcat, rfl⟩
  · exact absurd h (List.not_mem_nil x)
  · rcases candidate_classified np.1 (List.mem_map_of_mem _ hnp) (lowerStr text)
      with ⟨_, hmem⟩ | heq
    · exact hmem
    · rw [heq] at hcat; exact absurd hcat (by decide)

theorem extract_v_names (text : String) :
    ∀ x, x ∈ (extractClassifyProps text).2 → x ∈ extractVNames := by
  intro x hx
  rcases extractFold_mem_v (lowerStr text) propPatterns ([], []) x hx with
    h | ⟨np, hnp, hcat, rfl⟩
  · exact absurd h (List.not_mem_nil x)
  · rcases candidate_classified np.1 (List.mem_map_of_mem _ hnp) (lowerStr text)
      with ⟨hcat', _⟩ | heq
    · rw [hcat'] at hcat; exact absurd hcat (by decide)
    · rw [heq]; decide

/-- C9: every classified prop string appears in exactly one of the three
category lists (props, set_dressing, vehicles) and never in more than one.
First conjunct: no string is in two of the three lists produced for a
scene (props list and vehicles field of `_extract_and_classify_props`,
set-dressing elements of `_rule_based_enrichment`).  Second conjunct: each
candidate item whose pattern matches the scene text is assigned exactly
one category by `classify_prop` and lands in exactly one of the lists. -/
theorem propCategoryExclusive (text location item : String) :
    ((if item ∈ (extractClassifyProps text).1 then 1 else 0) +
     (if item ∈ (extractClassifyProps text).2 then 1 else 0) +
     (if item ∈ setDressingElements text location then 1 else 0) ≤ 1) ∧
    (∀ np ∈ propPatterns, np.2 (lowerStr text) = true →
      ((classifyProp np.1 (lowerStr text)).2 ∈ (extractClassifyProps text).1 ∧
        (classifyProp np.1 (lowerStr text)).2 ∉ (extractClassifyProps text).2) ∨
      ((classifyProp np.1 (lowerStr text)).2 ∈ (extractClassifyProps text).2 ∧
        (classifyProp np.1 (lowerStr text)).2 ∉ (extractClassifyProps text).1)) := by
  have e12 : ∀ y, y ∈ (extractClassifyProps text).1 →
      y ∈ (extractClassifyProps text).2 → False := fun y a b =>
    @disj_of_allnot extractPNames extractVNames (by decide) y
      (extract_p_names text y a) (extract_v_names text y b)
  constructor
  · have e13 : ¬(item ∈ (extractClassifyProps text).1 ∧
        item ∈ setDressingElements text location) := fun ⟨a, b⟩ =>
      @disj_of_allnot extractPNames dressingNames (by decide) item
        (extract_p_names text item a) (setDressing_sub text location item b)
    have e23 : ¬(item ∈ (extractClassifyProps text).2 ∧
        item ∈ setDressingElements text location) := fun ⟨a, b⟩ =>
      @disj_of_allnot extractVNames dressingNames (by decide) item
        (extract_v_names text item a) (setDressing_sub text location item b)
    by_cases h1 : item ∈ (extractClassifyProps text).1
    · have h2 : item ∉ (extractClassifyProps text).2 := fun hb => e12 item h1 hb
      have h3 : item ∉ setDressingElements text location := fun hb => e13 ⟨h1, hb⟩
      simp [h1, h2, h3]
    · by_cases h2 : item ∈ (extractClassifyProps text).2
      · have h3 : item ∉ setDressingElements text location := fun hb => e23 ⟨h2, hb⟩
        simp [h1, h2, h3]
      · by_cases h3 : item ∈ setDressingElements text location <;> simp [h1, h2, h3]
  · intro np hnp hmatch
    rcases candidate_classified np.1 (List.mem_map_of_mem _ hnp) (lowerStr text)
      with ⟨hcat, _⟩ | heq
    · have hmem := (extractFold_complete (lowerStr text) propPatterns ([], [])
        np hnp hmatch).1 hcat
      exact Or.inl ⟨hmem, fun hb => e12 _ hmem hb⟩
    · have hcat : (classifyProp np.1 (lowerStr text)).1 = "vehicles" := by
        rw [heq]
      have hmem := (extractFold_complete (lowerStr text) propPatterns ([], [])
        np hnp hmatch).2 hcat
      exact Or.inr ⟨hmem, fun hb => e12 _ hb hmem⟩

/-- Witness for C9: concrete instantiation on a scene text containing the
envelope candidate; the classified name lands in the props list only. -/
theorem propCategoryExclusive_witness :
    ((if "ظرف بريدي" ∈ (extractClassifyProps "يمسك ظرف").1 then 1 else 0) +
     (if "ظرف بريدي" ∈ (extractClassifyProps "يمسك ظرف").2 then 1 else 0) +
     (if "ظرف بريدي" ∈ setDressingElements "يمسك ظرف" "مكتب" then 1 else 0) ≤ 1) ∧
    (((classifyProp "ظرف" (lowerStr "يمسك ظرف")).2 ∈
        (extractClassifyProps "يمسك ظرف").1 ∧
      (classifyProp "ظرف" (lowerStr "يمسك ظرف")).2 ∉
        (extractClassifyProps "يمسك ظرف").2) ∨
     ((classifyProp "ظرف" (lowerStr "يمسك ظرف")).2 ∈
        (extractClassifyProps "يمسك ظرف").2 ∧
      (classifyProp "ظرف" (lowerStr "يمسك ظرف")).2 ∉
        (extractClassifyProps "يمسك ظرف").1)) := by
  refine ⟨(propCategoryExclusive "يمسك ظرف" "مكتب" "ظرف بريدي").1, ?_⟩
  exact (propCategoryExclusive "يمسك ظرف" "مكتب" "ظرف بريدي").2
    ("ظرف", fun t => strHas t "ظرف" || strHas t "مظروف")
    (List.mem_cons_self _ _) (by rfl)

/-- C5 counterexample: a context containing a single vehicle keyword has a
strictly higher vehicle score than medical score, yet the item is
classified props, because `_classify_wheelchair` additionally requires a
vehicle score of at least 2. -/
theorem classifyWheelchair_strict_higher_fails :
    indicatorScore vehicleIndicators "سرعة" = 1 ∧
    indicatorScore medicalIndicators "سرعة" = 0 ∧
    (classifyWheelchair "سرعة").1 = "props" := by decide

/-- C5 (amended): the wheelchair is classified vehicles exactly when the
vehicle-context score is strictly higher than the medical score AND at
least 2; otherwise props (including ties).  The three concrete examples
of the claim behave as stated: pushed/street/speed context gives
vehicles, medical/patient/sitting context gives props, a tie gives
props. -/
theorem classifyWheelchair_rule (ctx : String) :
    ((classifyWheelchair ctx).1 = "vehicles" ↔
      indicatorScore medicalIndicators ctx <
        indicatorScore vehicleIndicators ctx ∧
      2 ≤ indicatorScore vehicleIndicators ctx) ∧
    (classifyWheelchair "يدفع الكرسي في الشارع بسرعة").1 = "vehicles" ∧
    (classifyWheelchair "مريض يجلس في الكرسي الطبي").1 = "props" ∧
    (classifyWheelchair "يدفع الكرسي للمريض").1 = "props" := by
  refine ⟨?_, by decide, by decide, by decide⟩
  simp only [classifyWheelchair]
  split
  · rename_i h; exact iff_of_true rfl h
  · rename_i h
    constructor
    · intro hcontra; exact absurd hcontra (by decide)
    · intro hr; exact absurd hr h

/-- Witness for C5: the characterization applied at a concrete context. -/
theorem classifyWheelchair_rule_witness :
    (classifyWheelchair "يدفع بسرعة في الطريق").1 = "vehicles" :=
  (classifyWheelchair_rule "يدفع بسرعة في الطريق").1.mpr (by decide)

/-!
## Job manager (`AdvancedJobManager`,
src/ultimate_advanced_python_brain_service.py)

Modelling notes:
* `uuid.uuid4()` is modelled by a fresh counter `nextId`; only freshness
  of the generated identifier matters.
* The md5 cache key of `text + component + threshold` is modelled by the
  formatted content itself (md5 treated as injective); the
  `confidence_threshold` float is carried as its formatted string.
* `datetime.now()` is an explicit `now : Nat` argument; timestamps are
  seconds, so `(now - cached).total_seconds() < ttl` is `now - ts < ttl`.
* The bookkeeping that no claim touches (`job_metadata`,
  `job_start_times`, `processing_times`, metrics history, the `kwargs`
  field updates of `update_job_status`) is omitted.
-/

/-- `JobStatus`. -/
inductive JStatus
  | pending
  | processing
  | completed
  | failed
  | cancelled
  | paused
deriving DecidableEq

/-- `Priority`. -/
inductive JPriority
  | low
  | normal
  | high
  | urgent
  | critical
deriving DecidableEq

/-- The `priority_weights` table of `create_job` (its `.get` with default 2
never falls back to the default: the table is total on `Priority`). -/
def priorityWeight : JPriority → Nat
  | .low => 1
  | .normal => 2
  | .high => 3
  | .urgent => 4
  | .critical => 5

/-- The request fields that the job manager reads. -/
structure JRequest where
  text : String
  component : String
  threshold : String
  priority : JPriority
  cacheResults : Bool

/-- `_generate_cache_key`: md5 of `f"{text}_{component}_{threshold}"`,
modelled as the formatted content. -/
def cacheKeyOf (r : JRequest) : String :=
  r.text ++ "_" ++ r.component ++ "_" ++ r.threshold

/-- The `AdvancedJobManager` state. -/
structure JMState where
  nextId : Nat
  jobs : List (Nat × JStatus)
  jobQueue : List Nat
  jobPriorities : List (Nat × Nat)
  jobCounts : JStatus → Nat
  cache : List (String × Nat)
  activeJobs : List Nat
  maxConcurrent : Nat
  cacheTtl : Nat

/-- `AdvancedJobManager.__init__(max_concurrent_jobs)`. -/
def jmInit (maxConc : Nat) : JMState where
  nextId := 0
  jobs := []
  jobQueue := []
  jobPriorities := []
  jobCounts := fun _ => 0
  cache := []
  activeJobs := []
  maxConcurrent := maxConc
  cacheTtl := 3600

/-- First-match association lookup (Python dict read). -/
def assocFind {α : Type} (l : List (Nat × α)) (k : Nat) : Option α :=
  (l.find? (fun p => p.1 == k)).map (fun p => p.2)

/-- Association lookup with string keys (the cache dict). -/
def cacheFind (l : List (String × Nat)) (k : String) : Option Nat :=
  (l.find? (fun p => p.1 == k)).map (fun p => p.2)

/-- `self.job_priorities.get(queued_job_id, 1)`. -/
def prioOf (prios : List (Nat × Nat)) (q : Nat) : Nat :=
  (assocFind prios q).getD 1

/-- `_add_to_queue_by_priority(job_id, priority_weight)`: insert before the
first queued job with a strictly lower weight, else append. -/
def addToQueueByPriority (prios : List (Nat × Nat)) (jid w : Nat) :
    List Nat → List Nat
  | [] => [jid]
  | q :: rest =>
    if prioOf prios q < w then jid :: q :: rest
    else q :: addToQueueByPriority prios jid w rest

/-- Per-status counter increment. -/
def countsIncr (c : JStatus → Nat) (st : JStatus) : JStatus → Nat :=
  fun s => if s = st then c s + 1 else c s

/-- Per-status counter decrement, `max(0, x - 1)` as truncated
subtraction. -/
def countsDecr (c : JStatus → Nat) (st : JStatus) : JStatus → Nat :=
  fun s => if s = st then c s - 1 else c s

/-- `create_job(request)`: on a fresh cache hit (entry present and younger
than the ttl) the source logs and returns the new uuid WITHOUT storing any
job, leaving `self.jobs` untouched; otherwise it records a pending job,
assigns the priority weight and inserts the id into the queue. -/
def createJob (now : Nat) (req : JRequest) (s : JMState) : Nat × JMState :=
  let jid := s.nextId
  let key := cacheKeyOf req
  let hit := req.cacheResults &&
    (match cacheFind s.cache key with
     | some ts => decide (now - ts < s.cacheTtl)
     | none => false)
  if hit then
    (jid, { s with nextId := jid + 1 })
  else
    let w := priorityWeight req.priority
    let prios := s.jobPriorities ++ [(jid, w)]
    (jid, { s with
      nextId := jid + 1
      jobs := s.jobs ++ [(jid, JStatus.pending)]
      jobCounts := countsIncr s.jobCounts JStatus.pending
      jobPriorities := prios
      jobQueue := addToQueueByPriority prios jid w s.jobQueue })

/-- `update_job_status(job_id, status)`: no lifecycle validation — an
unknown id is silently ignored, any old-to-new change is applied; the job
leaves the queue when the new status is processing or terminal. -/
def updateJobStatus (jid : Nat) (st : JStatus) (s : JMState) : JMState :=
  match assocFind s.jobs jid with
  | none => s
  | some old =>
    let jobs := s.jobs.map (fun p => if p.1 == jid then (p.1, st) else p)
    let counts := countsIncr (countsDecr s.jobCounts old) st
    let q1 :=
      if st = JStatus.processing ∧ jid ∈ s.jobQueue then s.jobQueue.erase jid
      else s.jobQueue
    let q2 :=
      if (st = JStatus.completed ∨ st = JStatus.failed ∨ st = JStatus.cancelled)
          ∧ jid ∈ q1 then q1.erase jid
      else q1
    { s with jobs := jobs, jobCounts := counts, jobQueue := q2 }

/-- `get_next_job_from_queue` body: while the queue is nonempty (and below
the concurrency cap, checked outside this loop since `active_jobs` does
not change inside it), return the head if it is a known pending job, else
pop it and continue.  Returns the result and the possibly shortened
queue. -/
def popNextPending (jobs : List (Nat × JStatus)) :
    List Nat → Option Nat × List Nat
  | [] => (none, [])
  | q :: rest =>
    if assocFind jobs q == some JStatus.pending then (some q, q :: rest)
    else popNextPending jobs rest

/-- `get_next_job_from_queue()`. -/
def getNextJob (s : JMState) : Option Nat × List Nat :=
  if s.activeJobs.length < s.maxConcurrent then
    popNextPending s.jobs s.jobQueue
  else
    (none, s.jobQueue)

/-- `create_job` over a list of requests, in order. -/
def submitAll (now : Nat) (reqs : List JRequest) (s : JMState) : JMState :=
  reqs.foldl (fun st r => (createJob now r st).2) s

/-- Repeatedly take the next queued job and mark it processing, listing
the order in which jobs are dequeued. -/
def drainQueue : Nat → JMState → List Nat
  | 0, _ => []
  | fuel + 1, s =>
    match (getNextJob s).1 with
    | none => []
    | some j => j :: drainQueue fuel (updateJobStatus j JStatus.processing s)

/-- A concrete request used by the job-manager theorems. -/
def cjReq (t : String) (p : JPriority) : JRequest where
  text := t
  component := "full_analysis"
  threshold := "0.7"
  priority := p
  cacheResults := true

/-- C2: evaluation of `create_job` at the failing input.  First part: the
manager never writes to `self.cache`, so a second identical submission
within the ttl does not hit the cache and creates a second PENDING job
(not a completed one).  Second part: even with a fresh cache entry
present, the cache-hit path returns a job id for which no job record
exists at all — `self.jobs` stays empty, so the returned id references no
completed job and no cached result. -/
theorem createJob_cache_divergence :
    (let s1 := (createJob 0 (cjReq "t" JPriority.normal) (jmInit 10)).2
     let second := createJob 0 (cjReq "t" JPriority.normal) s1
     assocFind second.2.jobs second.1 = some JStatus.pending ∧
       second.2.jobs.length = 2) ∧
    (let sc : JMState :=
      { jmInit 10 with cache := [(cacheKeyOf (cjReq "t" JPriority.normal), 0)] }
     let hitRes := createJob 0 (cjReq "t" JPriority.normal) sc
     assocFind hitRes.2.jobs hitRes.1 = none ∧ hitRes.2.jobs = []) := by
  exact ⟨⟨by decide, by decide⟩, ⟨by decide, by decide⟩⟩

/-- C4 counterexample: a completed job moved back to pending.  The
requested transition completed to pending is applied, not rejected: the
job status really changes, and `update_job_status` has no error channel at
all (its only effect is the state; no exception type exists in the
source file). -/
theorem updateJobStatus_accepts_completed_to_pending :
    (let s1 := (createJob 0 (cjReq "u" JPriority.normal) (jmInit 10)).2
     let s3 := updateJobStatus 0 JStatus.completed
       (updateJobStatus 0 JStatus.processing s1)
     assocFind s3.jobs 0 = some JStatus.completed ∧
       assocFind (updateJobStatus 0 JStatus.pending s3).jobs 0 =
         some JStatus.pending) := by
  exact ⟨by decide, by decide⟩

theorem not_mem_erase_of_count_le_one (l : List Nat) (a : Nat)
    (h : l.count a ≤ 1) : a ∉ l.erase a := by
  intro hm
  have h1 := List.count_erase_self a l
  have h2 : 0 < (l.erase a).count a := List.count_pos_iff.mpr hm
  omega

theorem updateQueue_not_mem (queue : List Nat) (jid : Nat) (st : JStatus)
    (hst : st = JStatus.processing ∨ st = JStatus.completed ∨
      st = JStatus.failed ∨ st = JStatus.cancelled)
    (hcount : queue.count jid ≤ 1) :
    jid ∉ (if (st = JStatus.completed ∨ st = JStatus.failed ∨
                st = JStatus.cancelled) ∧
              jid ∈ (if st = JStatus.processing ∧ jid ∈ queue then
                queue.erase jid else queue)
           then (if st = JStatus.processing ∧ jid ∈ queue then
             queue.erase jid else queue).erase jid
           else (if st = JStatus.processing ∧ jid ∈ queue then
             queue.erase jid else queue)) := by
  rcases hst with h1 | h1 | h1 | h1
  · subst h1
    by_cases hq : jid ∈ queue
    · have hinner : (if JStatus.processing = JStatus.processing ∧ jid ∈ queue
          then queue.erase jid else queue) = queue.erase jid := if_pos ⟨rfl, hq⟩
      rw [hinner, if_neg]
      · exact not_mem_erase_of_count_le_one queue jid hcount
      · rintro ⟨hc, _⟩
        rcases hc with hc | hc | hc <;> exact JStatus.noConfusion hc
    · have hinner : (if JStatus.processing = JStatus.processing ∧ jid ∈ queue
          then queue.erase jid else queue) = queue :=
        if_neg (fun hcon => hq hcon.2)
      rw [hinner, if_neg (fun hcon => hq hcon.2)]
      exact hq
  · subst h1
    have hinner : (if JStatus.completed = JStatus.processing ∧ jid ∈ queue
        then queue.erase jid else queue) = queue :=
      if_neg (fun hcon => JStatus.noConfusion hcon.1)
    rw [hinner]
    by_cases hq : jid ∈ queue
    · rw [if_pos ⟨Or.inl rfl, hq⟩]
      exact not_mem_erase_of_count_le_one queue jid hcount
    · rw [if_neg (fun hcon => hq hcon.2)]
      exact hq
  · subst h1
    have hinner : (if JStatus.failed = JStatus.processing ∧ jid ∈ queue
        then queue.erase jid else queue) = queue :=
      if_neg (fun hcon => JStatus.noConfusion hcon.1)
    rw [hinner]
    by_cases hq : jid ∈ queue
    · rw [if_pos ⟨Or.inr (Or.inl rfl), hq⟩]
      exact not_mem_erase_of_count_le_one queue jid hcount
    · rw [if_neg (fun hcon => hq hcon.2)]
      exact hq
  · subst h1
    have hinner : (if JStatus.cancelled = JStatus.processing ∧ jid ∈ queue
        then queue.erase jid else queue) = queue :=
      if_neg (fun hcon => JStatus.noConfusion hcon.1)
    rw [hinner]
    by_cases hq : jid ∈ queue
    · rw [if_pos ⟨Or.inr (Or.inr rfl), hq⟩]
      exact not_mem_erase_of_count_le_one queue jid hcount
    · rw [if_neg (fun hcon => hq hcon.2)]
      exact hq

theorem find?_map_update (l : List (Nat × JStatus)) (jid : Nat) (st : JStatus)
    (p : Nat × JStatus) (hf : l.find? (fun p => p.1 == jid) = some p) :
    (l.map (fun p => if p.1 == jid then (p.1, st) else p)).find?
      (fun p => p.1 == jid) = some (p.1, st) := by
  induction l with
  | nil => simp at hf
  | cons a rest ih =>
    cases hab : (a.1 == jid) with
    | true =>
      simp only [List.find?, hab] at hf
      injection hf with hp
      subst hp
      have hifa : (if (a.1 == jid) = true then (a.1, st) else a) = (a.1, st) :=
        if_pos hab
      simp only [List.map_cons, List.find?, hifa]
      simp [hab]
    | false =>
      simp only [List.find?, hab] at hf
      have hifa : (if (a.1 == jid) = true then (a.1, st) else a) = a :=
        if_neg (by simp [hab])
      simp only [List.map_cons, List.find?]
      rw [hifa]
      simp only [hab]
      exact ih hf

/-- C4 (amended): `update_job_status` performs no lifecycle validation:
an unknown job id is silently ignored (no job-not-found error), any
requested status change is applied to a known job (no invalid-transition
error), and the job is removed from the queue when the new status is
processing, completed, failed, or cancelled. -/
theorem updateJobStatus_no_validation (s : JMState) (jid : Nat) (st : JStatus) :
    (assocFind s.jobs jid = none → updateJobStatus jid st s = s) ∧
    (assocFind s.jobs jid ≠ none →
      assocFind (updateJobStatus jid st s).jobs jid = some st) ∧
    ((st = JStatus.processing ∨ st = JStatus.completed ∨ st = JStatus.failed ∨
        st = JStatus.cancelled) → s.jobQueue.count jid ≤ 1 →
      assocFind s.jobs jid ≠ none →
      jid ∉ (updateJobStatus jid st s).jobQueue) := by
  refine ⟨?_, ?_, ?_⟩
  · intro h
    unfold updateJobStatus
    rw [h]
  · intro h
    match hfind : assocFind s.jobs jid with
    | none => exact absurd hfind h
    | some old =>
      unfold updateJobStatus
      rw [hfind]
      simp only [assocFind]
      rcases hf : s.jobs.find? (fun p => p.1 == jid) with _ | p
      · exfalso
        apply h
        simp [assocFind, hf]
      · rw [find?_map_update s.jobs jid st p hf]
        rfl
  · intro hst hcount h
    match hfind : assocFind s.jobs jid with
    | none => exact absurd hfind h
    | some old =>
      unfold updateJobStatus
      rw [hfind]
      exact updateQueue_not_mem s.jobQueue jid st hst hcount

/-- Witness for C4 (amended): at the concrete state of the counterexample,
the completed-to-pending request is applied and a processing request
removes the job from the queue. -/
theorem updateJobStatus_no_validation_witness :
    (let s1 := (createJob 0 (cjReq "u" JPriority.normal) (jmInit 10)).2
     assocFind (updateJobStatus 0 JStatus.pending
       (updateJobStatus 0 JStatus.completed
         (updateJobStatus 0 JStatus.processing s1))).jobs 0 =
           some JStatus.pending) ∧
    (let s1 := (createJob 0 (cjReq "u" JPriority.normal) (jmInit 10)).2
     0 ∉ (updateJobStatus 0 JStatus.processing s1).jobQueue) := by
  constructor
  · exact (updateJobStatus_no_validation _ 0 JStatus.pending).2.1 (by decide)
  · exact (updateJobStatus_no_validation _ 0 JStatus.processing).2.2
      (Or.inl rfl) (by decide) (by decide)

/-- The ordering the queue maintains: an earlier entry has a strictly
higher weight, or the same weight and a smaller id — ids are assigned in
submission order, so equal weights keep submission order. -/
def queueRel (prios : List (Nat × Nat)) (a b : Nat) : Prop :=
  prioOf prios b < prioOf prios a ∨ (prioOf prios a = prioOf prios b ∧ a < b)

theorem find?_append_none {α : Type} (l1 l2 : List α) (p : α → Bool)
    (h : l1.find? p = none) : (l1 ++ l2).find? p = l2.find? p := by
  induction l1 with
  | nil => simp
  | cons a rest ih =>
    cases hab : p a with
    | true =>
      simp only [List.find?, hab] at h
      exact Option.noConfusion h
    | false =>
      simp only [List.find?, hab] at h
      simp only [List.cons_append, List.find?, hab]
      exact ih h

theorem find?_append_some {α : Type} (l1 l2 : List α) (p : α → Bool) (a : α)
    (h : l1.find? p = some a) : (l1 ++ l2).find? p = some a := by
  induction l1 with
  | nil => simp at h
  | cons x rest ih =>
    cases hab : p x with
    | true =>
      simp only [List.find?, hab] at h
      simpa only [List.cons_append, List.find?, hab] using h
    | false =>
      simp only [List.find?, hab] at h
      simp only [List.cons_append, List.find?, hab]
      exact ih h

theorem prioOf_append_ne (prios : List (Nat × Nat)) (j w q : Nat)
    (hne : q ≠ j) : prioOf (prios ++ [(j, w)]) q = prioOf prios q := by
  unfold prioOf assocFind
  cases hf : prios.find? (fun p => p.1 == q) with
  | some p => rw [find?_append_some _ _ _ _ hf]
  | none =>
    rw [find?_append_none _ _ _ hf]
    have hn : ([((j : Nat), w)].find? (fun p => p.1 == q)) = none := by
      apply List.find?_eq_none.mpr
      intro x hx
      rw [List.mem_singleton] at hx
      subst hx
      simp
      omega
    rw [hn]

theorem prioOf_append_self (prios : List (Nat × Nat)) (j w : Nat)
    (h : ∀ kw ∈ prios, kw.1 ≠ j) : prioOf (prios ++ [(j, w)]) j = w := by
  unfold prioOf assocFind
  have hn : prios.find? (fun p => p.1 == j) = none := by
    apply List.find?_eq_none.mpr
    intro p hp
    simpa using h p hp
  rw [find?_append_none _ _ _ hn]
  simp [List.find?]

theorem addToQueue_mem (prios : List (Nat × Nat)) (jid w : Nat) :
    ∀ (q : List Nat) (x : Nat), x ∈ addToQueueByPriority prios jid w q →
      x = jid ∨ x ∈ q := by
  intro q
  induction q with
  | nil =>
    intro x hx
    simp only [addToQueueByPriority] at hx
    exact Or.inl (List.mem_singleton.mp hx)
  | cons a rest ih =>
    intro x hx
    simp only [addToQueueByPriority] at hx
    split at hx
    · rcases List.mem_cons.mp hx with rfl | hx2
      · exact Or.inl rfl
      · exact Or.inr hx2
    · rcases List.mem_cons.mp hx with rfl | hx2
      · exact Or.inr (List.mem_cons_self x rest)
      · rcases ih x hx2 with h | h
        · exact Or.inl h
        · exact Or.inr (List.mem_cons_of_mem a h)

theorem addToQueue_pairwise (prios : List (Nat × Nat)) (jid w : Nat)
    (queue : List Nat) (hjw : prioOf prios jid = w)
    (hfresh : ∀ q ∈ queue, q < jid)
    (hpw : queue.Pairwise (queueRel prios)) :
    (addToQueueByPriority prios jid w queue).Pairwise (queueRel prios) := by
  induction queue with
  | nil => simp [addToQueueByPriority]
  | cons a rest ih =>
    simp only [addToQueueByPriority]
    rcases List.pairwise_cons.mp hpw with ⟨ha, hrest⟩
    split
    · rename_i hlt
      refine List.pairwise_cons.mpr ⟨?_, hpw⟩
      intro b hb
      rcases List.mem_cons.mp hb with rfl | hbr
      · exact Or.inl (by rw [hjw]; exact hlt)
      · rcases ha b hbr with h | ⟨heq, _⟩
        · exact Or.inl (by rw [hjw]; exact lt_trans h hlt)
        · exact Or.inl (by rw [hjw, ← heq]; exact hlt)
    · rename_i hge
      refine List.pairwise_cons.mpr
        ⟨?_, ih (fun q hq => hfresh q (List.mem_cons_of_mem a hq)) hrest⟩
      intro b hb
      rcases addToQueue_mem prios jid w rest b hb with rfl | hbr
      · rcases lt_or_eq_of_le (not_lt.mp hge) with h | h
        · exact Or.inl (by rw [hjw]; exact h)
        · exact Or.inr ⟨by rw [hjw, ← h], hfresh a (List.mem_cons_self a rest)⟩
      · exact ha b hbr

/-- Invariant tying the queue to the priority table: queued ids and
priority keys are below the fresh-id counter, and the queue is ordered by
`queueRel`. -/
def jmInv (s : JMState) : Prop :=
  (∀ q ∈ s.jobQueue, q < s.nextId) ∧
  (∀ kw ∈ s.jobPriorities, kw.1 < s.nextId) ∧
  s.jobQueue.Pairwise (queueRel s.jobPriorities)

theorem jmInit_inv (n : Nat) : jmInv (jmInit n) :=
  ⟨by simp [jmInit], by simp [jmInit], by simp [jmInit]⟩

theorem createJob_preserves_inv (now : Nat) (req : JRequest) (s : JMState)
    (h : jmInv s) : jmInv (createJob now req s).2 := by
  obtain ⟨hq, hp, hpw⟩ := h
  simp only [createJob]
  split
  · exact ⟨fun q hq' => Nat.lt_succ_of_lt (hq q hq'),
      fun kw hk => Nat.lt_succ_of_lt (hp kw hk), hpw⟩
  · refine ⟨?_, ?_, ?_⟩
    · intro q hq'
      rcases addToQueue_mem _ _ _ _ q hq' with rfl | hmem
      · exact Nat.lt_succ_self _
      · exact Nat.lt_succ_of_lt (hq q hmem)
    · intro kw hk
      rcases List.mem_append.mp hk with h1 | h1
      · exact Nat.lt_succ_of_lt (hp kw h1)
      · rw [List.mem_singleton.mp h1]
        exact Nat.lt_succ_self _
    · have hkeys : ∀ kw ∈ s.jobPriorities, kw.1 ≠ s.nextId :=
        fun kw hk => Nat.ne_of_lt (hp kw hk)
      have hpw' : s.jobQueue.Pairwise (queueRel (s.jobPriorities ++
          [(s.nextId, priorityWeight req.priority)])) := by
        refine List.Pairwise.imp_of_mem ?_ hpw
        intro a b ha' hb' hab
        unfold queueRel at hab ⊢
        rw [prioOf_append_ne _ _ _ _ (Nat.ne_of_lt (hq a ha')),
          prioOf_append_ne _ _ _ _ (Nat.ne_of_lt (hq b hb'))]
        exact hab
      exact addToQueue_pairwise _ _ _ _
        (prioOf_append_self _ _ _ hkeys) hq hpw'

theorem submitAll_inv (now : Nat) (reqs : List JRequest) (s : JMState)
    (h : jmInv s) : jmInv (submitAll now reqs s) := by
  induction reqs generalizing s with
  | nil => exact h
  | cons r rest ih =>
    simp only [submitAll, List.foldl_cons]
    exact ih _ (createJob_preserves_inv now r s h)

/-- C3: the queue built by `create_job` and `_add_to_queue_by_priority` is
always ordered so that a higher priority weight comes before a lower one,
and among equal weights the ids (assigned in submission order) ascend —
equal priority preserves submission order.  The concrete conjuncts run
the weights [2, 5, 2, 5]: with ids 0..3 for job1..job4, the queue after
the four submissions is [1, 3, 0, 2], i.e. [job2, job4, job1, job3], and
draining the queue (dequeue then mark processing) yields exactly that
order. -/
theorem jobQueue_priority_order (now : Nat) (reqs : List JRequest) :
    ((submitAll now reqs (jmInit 10)).jobQueue.Pairwise
      (queueRel (submitAll now reqs (jmInit 10)).jobPriorities)) ∧
    (submitAll 0 [cjReq "j1" JPriority.normal, cjReq "j2" JPriority.critical,
        cjReq "j3" JPriority.normal, cjReq "j4" JPriority.critical]
      (jmInit 10)).jobQueue = [1, 3, 0, 2] ∧
    drainQueue 4 (submitAll 0 [cjReq "j1" JPriority.normal,
        cjReq "j2" JPriority.critical, cjReq "j3" JPriority.normal,
        cjReq "j4" JPriority.critical] (jmInit 10)) = [1, 3, 0, 2] :=
  ⟨(submitAll_inv now reqs _ (jmInit_inv 10)).2.2, by decide, by decide⟩

/-!
## Scene splitter (`split_scenes`, src/ultimate_breakdown_system.py and
src/revolutionary_breakdown_system_v4.py — the two copies are identical)

The source splits the document at every position where the multiline
lookahead `(?=^\s*(?:مشهد|scene)\s*\d+)` matches, strips the blocks, drops
blocks whose start does not parse with `^\s*(?:مشهد|scene)\s*(\d+)`
(only the preamble before the first marker), and returns
`(group(1), block)` pairs in textual order.  The embedding works on the
document as a list of lines: a marker line carries the keyword and the
integer on one line (the pathological case where `\s*` of the source
regex crosses a line break is outside this model). -/

/-- Parse `^\s*(?:مشهد|scene)\s*(\d+)` (case-insensitive) against one
line, returning the digits of the scene number. -/
def markerParse (line : String) : Option String :=
  let l := (line.data.map Char.toLower).dropWhile pyWS
  let afterKw : Option (List Char) :=
    if litPre "مشهد".data l then some (l.drop 4)
    else if litPre "scene".data l then some (l.drop 5)
    else none
  match afterKw with
  | none => none
  | some r =>
    let ds := (r.dropWhile pyWS).takeWhile pyDigit
    if ds = [] then none else some (String.mk ds)

/-- Does the line start a new scene block? -/
def isMarkerLine (line : String) : Bool := (markerParse line).isSome

/-- `split_scenes` on a document given as lines, as a single accumulating
pass: a marker line closes the current block (if any) and opens a new one
carrying its scene number; a non-marker line joins the current block, or
is part of the dropped preamble when no block is open yet. -/
def splitScenesAux : List String → Option (String × List String) →
    List (String × List String)
  | [], none => []
  | [], some cur => [cur]
  | l :: rest, acc =>
    match markerParse l with
    | some num =>
      (match acc with
       | none => []
       | some cur => [cur]) ++ splitScenesAux rest (some (num, [l]))
    | none =>
      match acc with
      | none => splitScenesAux rest none
      | some cur => splitScenesAux rest (some (cur.1, cur.2 ++ [l]))

/-- `split_scenes(content)` on the document lines. -/
def splitScenesLines (lines : List String) : List (String × List String) :=
  splitScenesAux lines none

theorem splitScenesAux_spec (lines : List String) :
    ∀ acc : Option (String × List String),
      ((splitScenesAux lines acc).map (fun b => b.1) =
        acc.toList.map (fun b => b.1) ++ lines.filterMap markerParse) ∧
      ((splitScenesAux lines acc).length =
        acc.toList.length + (lines.filter isMarkerLine).length) := by
  induction lines with
  | nil =>
    intro acc
    cases acc <;> simp [splitScenesAux]
  | cons l rest ih =>
    intro acc
    cases hm : markerParse l with
    | some num =>
      have hml : isMarkerLine l = true := by simp [isMarkerLine, hm]
      cases acc with
      | none =>
        simp only [splitScenesAux, hm, List.nil_append, List.filterMap_cons,
          List.filter_cons, hml]
        rcases ih (some (num, [l])) with ⟨h1, h2⟩
        constructor
        · simp only [h1, Option.toList, List.map_cons, List.map_nil]
          simp
        · simp only [h2, Option.toList]
          simp [Nat.add_comm]
      | some cur =>
        simp only [splitScenesAux, hm, List.filterMap_cons, List.filter_cons,
          hml]
        rcases ih (some (num, [l])) with ⟨h1, h2⟩
        constructor
        · simp only [List.map_append, h1, Option.toList]
          simp
        · simp only [List.length_append, h2, Option.toList]
          simp [Nat.add_comm]
    | none =>
      have hml : isMarkerLine l = false := by simp [isMarkerLine, hm]
      cases acc with
      | none =>
        simp only [splitScenesAux, hm, List.filterMap_cons, List.filter_cons,
          hml]
        exact ih none
      | some cur =>
        simp only [splitScenesAux, hm, List.filterMap_cons, List.filter_cons,
          hml]
        rcases ih (some (cur.1, cur.2 ++ [l])) with ⟨h1, h2⟩
        exact ⟨by simpa using h1, by simpa using h2⟩

/-- C1 counterexample: with the markers out of numeric order, the Scene
Splitter returns the blocks in textual order ["2", "1"], not sorted by the
parsed numeric value — the claimed ascending numeric ordering is false. -/
theorem splitScenes_not_numerically_sorted :
    splitScenesLines ["scene 2", "A", "scene 1", "B"] =
      [("2", ["scene 2", "A"]), ("1", ["scene 1", "B"])] ∧
    ¬ ((splitScenesLines ["scene 2", "A", "scene 1", "B"]).map
        (fun b => numVal b.1)).Sorted (· ≤ ·) := by
  constructor
  · decide
  · decide

/-- C1 (amended): for every document, the Scene Splitter returns exactly
one block per scene-marker line, and the blocks appear in textual order
of the markers, carrying each marker's scene number as written — the
order is the order of appearance in the input, not the ascending numeric
order of the parsed scene numbers. -/
theorem splitScenes_textual_order (lines : List String) :
    ((splitScenesLines lines).map (fun b => b.1) =
      lines.filterMap markerParse) ∧
    ((splitScenesLines lines).length =
      (lines.filter isMarkerLine).length) := by
  rcases splitScenesAux_spec lines none with ⟨h1, h2⟩
  exact ⟨by simpa using h1, by simpa using h2⟩

/-!
## Header parser (`RevolutionarySceneParser._parse_header`,
src/ultimate_breakdown_system.py)
-/

/-- `re.sub(r'\s+', ' ', ...)`: collapse whitespace runs to single spaces;
the flag records whether the previous character was whitespace. -/
def collapseWSAux : List Char → Bool → List Char
  | [], _ => []
  | c :: rest, prevWS =>
    if pyWS c then
      (if prevWS then collapseWSAux rest true
       else ' ' :: collapseWSAux rest true)
    else c :: collapseWSAux rest false

/-- Python `\w` for the scripts the source uses: ASCII alphanumerics,
underscore, and the Arabic block. -/
def pyWordChar (c : Char) : Bool :=
  c.isAlphanum || c == '_' || (0x600 ≤ c.toNat && c.toNat ≤ 0x6FF)

/-- Maximal runs of characters satisfying `keep` (the accumulator holds
the current run reversed). -/
def splitRunsAux (keep : Char → Bool) : List Char → List Char →
    List (List Char)
  | [], acc => if acc = [] then [] else [acc.reverse]
  | c :: rest, acc =>
    if keep c then splitRunsAux keep rest (c :: acc)
    else if acc = [] then splitRunsAux keep rest []
    else acc.reverse :: splitRunsAux keep rest []

/-- Maximal runs of characters satisfying `keep`. -/
def splitRuns (keep : Char → Bool) (cs : List Char) : List (List Char) :=
  splitRunsAux keep cs []

/-- The maximal `\w`-runs of a string. -/
def wordsOf (cs : List Char) : List (List Char) := splitRuns pyWordChar cs

/-- `re.search(r'\b(w)\b', s)` for a literal word `w`: the word occurs as
a maximal word-character run.  The optional trailing dot of `int\.?` and
`ext\.?` never changes whether the search succeeds, because a boundary
already sits between the final letter and the dot. -/
def hasWord (s : String) (w : String) : Bool :=
  (wordsOf s.data).any (fun ws => ws == w.data)

/-- The separator class `[-–—|]` of the location split. -/
def isSepChar (c : Char) : Bool :=
  c == '-' || c == '–' || c == '—' || c == '|'

/-- The classifier words removed from the location parts:
`(داخلي|int\.?|خارجي|ext\.?|نهار|day|ليل|night)` as a full match of the
lowercased part. -/
def classifierWords : List (List Char) :=
  ["داخلي", "int", "int.", "خارجي", "ext", "ext.", "نهار", "day", "ليل",
   "night"].map String.data

/-- Length of the match of `^(مشهد|scene)\s*\d+\s*[:\-–—]?\s*`
(case-insensitive) at the start of the header, if any. -/
def matchScenePrefixLen (cs : List Char) : Option Nat :=
  let cl := cs.map Char.toLower
  let kw : Option Nat :=
    if litPre "مشهد".data cl then some 4
    else if litPre "scene".data cl then some 5
    else none
  match kw with
  | none => none
  | some n =>
    let r1 := cl.drop n
    let wsN := (r1.takeWhile pyWS).length
    let r2 := r1.drop wsN
    let dN := (r2.takeWhile pyDigit).length
    if dN = 0 then none
    else
      let r3 := r2.drop dN
      let ws2 := (r3.takeWhile pyWS).length
      let r4 := r3.drop ws2
      let sepN :=
        match r4 with
        | c :: _ => if c == ':' || c == '-' || c == '–' || c == '—' then 1 else 0
        | [] => 0
      let r5 := r4.drop sepN
      let ws3 := (r5.takeWhile pyWS).length
      some (n + wsN + dN + ws2 + sepN + ws3)

/-- `re.sub(r'^(مشهد|scene)\s*\d+\s*[:\-–—]?\s*', '', h)`. -/
def stripScenePrefix (cs : List Char) : List Char :=
  match matchScenePrefixLen cs with
  | some n => cs.drop n
  | none => cs

/-- Length of the first alternative of
`(مشهد|scene|\d+|داخلي|خارجي|int|ext|ليل|نهار|day|night|[:\-–—])` matching
at this position of the lowercased header (alternatives in source
order; `\d+` greedy). -/
def headerTokenLen (cl : List Char) : Option Nat :=
  if litPre "مشهد".data cl then some 4
  else if litPre "scene".data cl then some 5
  else if 0 < (cl.takeWhile pyDigit).length then
    some (cl.takeWhile pyDigit).length
  else if litPre "داخلي".data cl then some 5
  else if litPre "خارجي".data cl then some 5
  else if litPre "int".data cl then some 3
  else if litPre "ext".data cl then some 3
  else if litPre "ليل".data cl then some 3
  else if litPre "نهار".data cl then some 4
  else if litPre "day".data cl then some 3
  else if litPre "night".data cl then some 5
  else
    match cl with
    | c :: _ =>
      if c == ':' || c == '-' || c == '–' || c == '—' then some 1 else none
    | [] => none

/-- Scanner of the fallback `re.sub` replacing every token occurrence with
a space; the fuel starts at the list length and every step consumes at
least one character. -/
def stripTokensAux : Nat → List Char → List Char
  | 0, cs => cs
  | fuel + 1, cs =>
    match cs with
    | [] => []
    | c :: rest =>
      match headerTokenLen ((c :: rest).map Char.toLower) with
      | some n => ' ' :: stripTokensAux fuel ((c :: rest).drop n)
      | none => c :: stripTokensAux fuel rest

/-- The fallback `re.sub` of `_parse_header` over the whole header. -/
def stripTokens (cs : List Char) : List Char :=
  stripTokensAux cs.length cs

/-- `' - '.join(parts)`. -/
def joinSepDash : List (List Char) → List Char
  | [] => []
  | [p] => p
  | p :: rest => p ++ [' ', '-', ' '] ++ joinSepDash rest

/-- The location computation of `_parse_header` on the collapsed header:
strip the scene prefix, split on separator runs, strip the parts, drop
empties and classifier words, and join with " - "; when nothing remains,
strip all tokens from the whole header, and fall back to the sentinel
`غير محدد` (unspecified) only when that leaves the empty string. -/
def headerLocation (h : List Char) : String :=
  let temp := stripLR (stripScenePrefix h)
  let parts := ((splitRuns (fun c => !isSepChar c) temp).map stripLR).filter
    (fun p => p ≠ [])
  let filtered := parts.filter
    (fun p => !(classifierWords.contains (p.map Char.toLower)))
  if filtered ≠ [] then
    String.mk (collapseWSAux (joinSepDash filtered) false)
  else
    let loc := collapseWSAux (stripLR (stripTokens h)) false
    if loc ≠ [] then String.mk loc else "غير محدد"

/-- `_parse_header(header, fallback_text)`, returning
`(int_ext, day_night, location)`. -/
def parseHeaderTriple (header fallbackText : String) :
    String × String × String :=
  let h := collapseWSAux (stripLR header.data) false
  let low := String.mk (h.map Char.toLower)
  let intExt :=
    if (hasWord low "خارجي" || hasWord low "ext") &&
        !(hasWord low "داخلي" || hasWord low "int") then "خارجي (EXT)"
    else if hasWord low "داخلي" || hasWord low "int" then "داخلي (INT)"
    else "داخلي (INT)"
  let fallbackLow := lowerStr fallbackText
  let dayNight :=
    if hasWord low "ليل" || hasWord low "night" then "ليل"
    else if hasWord low "نهار" || hasWord low "day" then "نهار"
    else if hasWord fallbackLow "ليل" || hasWord fallbackLow "night" then "ليل"
    else "نهار"
  (intExt, dayNight, headerLocation h)

theorem collapse_cons_ne (c : Char) (cs : List Char) :
    collapseWSAux (c :: cs) false ≠ [] := by
  simp only [collapseWSAux]
  by_cases hc : pyWS c = true <;> simp [hc]

theorem mk_ne_empty (l : List Char) (h : l ≠ []) : String.mk l ≠ "" := by
  intro hcon
  apply h
  have hd := congrArg String.data hcon
  simpa using hd

theorem joinSepDash_cons (p : List Char) (rest : List (List Char)) :
    ∃ t, joinSepDash (p :: rest) = p ++ t := by
  cases rest with
  | nil => exact ⟨[], by simp [joinSepDash]⟩
  | cons q qs =>
    exact ⟨[' ', '-', ' '] ++ joinSepDash (q :: qs), by
      simp [joinSepDash]⟩

theorem headerLocation_ne_empty (h : List Char) : headerLocation h ≠ "" := by
  simp only [headerLocation]
  split
  · rename_i hne
    rcases hfe : ((((splitRuns (fun c => !isSepChar c)
        (stripLR (stripScenePrefix h))).map stripLR).filter
          (fun p => p ≠ [])).filter
            (fun p => !(classifierWords.contains (p.map Char.toLower)))) with
      _ | ⟨p, rest⟩
    · exact absurd hfe hne
    · have hpmem : p ∈ (((splitRuns (fun c => !isSepChar c)
          (stripLR (stripScenePrefix h))).map stripLR).filter
            (fun p => p ≠ [])) := by
        have : p ∈ (((splitRuns (fun c => !isSepChar c)
            (stripLR (stripScenePrefix h))).map stripLR).filter
              (fun p => p ≠ [])).filter
                (fun p => !(classifierWords.contains (p.map Char.toLower))) := by
          rw [hfe]
          exact List.mem_cons_self p rest
        exact List.mem_of_mem_filter this
      have hpne : p ≠ [] := by
        have := (List.mem_filter.mp hpmem).2
        exact of_decide_eq_true this
      rw [hfe]
      rcases joinSepDash_cons p rest with ⟨t, ht⟩
      rw [ht]
      rcases hp : p with _ | ⟨c, cs⟩
      · exact absurd hp hpne
      · exact mk_ne_empty _ (collapse_cons_ne c (cs ++ t))
  · split
    · rename_i hloc
      exact mk_ne_empty _ hloc
    · decide

set_option maxHeartbeats 2000000 in
/-- C7 counterexample: a location remainder of 2 characters (at most 3)
is returned as the location itself — there is no fallback to the second
line of the block and no fallback to the sentinel in this case, contrary
to the claim. -/
theorem headerLocation_short_no_fallback :
    (parseHeaderTriple "مشهد 1 - داخلي - نهار - أب"
      "مشهد 1 - داخلي - نهار - أب\nالمقهى القديم").2.2 = "أب" ∧
    ("أب" : String).length ≤ 3 ∧
    ("أب" : String) ≠ "المقهى القديم" ∧ ("أب" : String) ≠ "غير محدد" := by
  refine ⟨by decide, by decide, by decide, by decide⟩

set_option maxHeartbeats 2000000 in
/-- C7 (amended): the location is the separator-split header with
classifier tokens removed, used regardless of its length (no
minimum-length check and no second-line fallback); when no parts remain
the classifier tokens are stripped from the whole header, and the
sentinel `غير محدد` (unspecified) is used only when that is empty — the
returned location is never the empty string. -/
theorem headerLocation_result (header fallbackText : String) :
    (parseHeaderTriple header fallbackText).2.2 ≠ "" ∧
    (parseHeaderTriple "مشهد 1 - داخلي - نهار - أب" "سطر ثان").2.2 = "أب" := by
  constructor
  · exact headerLocation_ne_empty _
  · decide

/-!
## Continuity graph (`SceneContextGraph`, src/ultimate_breakdown_system.py)
and the per-scene pipeline order of `RevolutionarySceneParser.analyze_scene`

Modelling notes:
* `DetailedBreakdown` is reduced to the fields this component reads.
* Python dicts keyed by strings are insertion-ordered association lists;
  `defaultdict(list)` reads in `register_scene` create-or-append through
  `assocSAppend`.
* `set(current_scene.cast)` in `detect_continuation` iterates in an order
  CPython does not specify; it is modelled as first-occurrence order of
  the cast list (`firstDedup`).
-/

/-- The fields of `DetailedBreakdown` read by the continuity graph. -/
structure CBD where
  sceneNumber : String
  dayNight : String
  location : String
  cast : List String
  propsList : List String
  costumesHtml : String
deriving DecidableEq

/-- One `character_timeline` entry appended by `register_scene`. -/
structure CEntry where
  scene : String
  time : String
  location : String
  wardrobe : String
deriving DecidableEq

/-- The timeline entry `register_scene` appends for every cast member. -/
def mkEntry (bd : CBD) : CEntry :=
  ⟨bd.sceneNumber, bd.dayNight, bd.location, bd.costumesHtml⟩

/-- The `SceneContextGraph` state. -/
structure CGraph where
  characterTimeline : List (String × List CEntry)
  propRegistry : List (String × List String)
  locationHistory : List (String × List String)

/-- `SceneContextGraph.__init__`. -/
def cgEmpty : CGraph := ⟨[], [], []⟩

/-- Dict read (first matching key). -/
def assocSGet {α : Type} (l : List (String × List α)) (k : String) :
    Option (List α) :=
  (l.find? (fun p => p.1 == k)).map (fun p => p.2)

/-- `defaultdict(list)` append: extend the existing entry or create a new
one at the end. -/
def assocSAppend {α : Type} (l : List (String × List α)) (k : String)
    (v : α) : List (String × List α) :=
  if l.any (fun p => p.1 == k) then
    l.map (fun p => if p.1 == k then (p.1, p.2 ++ [v]) else p)
  else l ++ [(k, [v])]

/-- The cast loop of `register_scene` over the character timeline. -/
def tlAdd (acc : List (String × List CEntry)) (cast : List String)
    (v : CEntry) : List (String × List CEntry) :=
  cast.foldl (fun a c => assocSAppend a c v) acc

/-- `register_scene(scene)`: append a timeline entry per cast member, the
scene number to each prop's registry, and the scene number to the
location history. -/
def registerScene (g : CGraph) (bd : CBD) : CGraph where
  characterTimeline := tlAdd g.characterTimeline bd.cast (mkEntry bd)
  propRegistry :=
    bd.propsList.foldl (fun a p => assocSAppend a p bd.sceneNumber)
      g.propRegistry
  locationHistory :=
    assocSAppend g.locationHistory bd.location bd.sceneNumber

/-- Python `l[-3:]`. -/
def lastN (n : Nat) (l : List α) : List α := l.drop (l.length - n)

/-- The `recent_scenes` accumulation of `detect_continuation`: for each
cast member with a timeline, append its last 3 entries. -/
def recentFold (tl : List (String × List CEntry)) (chars : List String)
    (acc : List CEntry) : List CEntry :=
  chars.foldl
    (fun a c =>
      match assocSGet tl c with
      | some es => a ++ lastN 3 es
      | none => a) acc

/-- `detect_continuation(current_scene)`: first entry of the reversed
recent-scenes list whose location and time match the current scene. -/
def detectContinuation (g : CGraph) (bd : CBD) : Option String :=
  let chars := firstDedup bd.cast
  let recent := recentFold g.characterTimeline chars []
  (recent.reverse.find?
    (fun e => e.location == bd.location && e.time == bd.dayNight)).map
    (fun e => e.scene)

/-- `get_continuity_notes(scene)`: one note per prop already registered in
more than one scene, and one wardrobe note when cast members reappear in
the same location (the previous-but-one timeline entry matches). -/
def continuityNotes (g : CGraph) (bd : CBD) : List String :=
  let propNotes := bd.propsList.filterMap (fun p =>
    let ls := (assocSGet g.propRegistry p).getD []
    if 1 < ls.length then
      some ("استمرارية: تطابق " ++ p ++ " مع ظهوره في المشاهد " ++
        String.intercalate ", " ls.dropLast)
    else none)
  let locationChars := bd.cast.filter (fun c =>
    match assocSGet g.characterTimeline c with
    | some es =>
      if 1 < es.length then
        match es.get? (es.length - 2) with
        | some prev => prev.location == bd.location
        | none => false
      else false
    | none => false)
  propNotes ++
    (if locationChars ≠ [] then
      ["استمرارية أزياء: " ++ String.intercalate ", " locationChars ++
        " في نفس الموقع"]
     else [])

/-- One scene of `analyze_scene`: pass 3 (continuation detection and
continuity notes) runs first, and only then is the scene registered into
the graph — mirroring the statement order of the source. -/
def processScene (g : CGraph) (bd : CBD) :
    (String × Option String × List String) × CGraph :=
  let ref := detectContinuation g bd
  let notes := continuityNotes g bd
  ((bd.sceneNumber, ref, notes), registerScene g bd)

/-- The document loop: scenes processed in order through the shared
graph. -/
def runScenes (g : CGraph) :
    List CBD → List (String × Option String × List String) × CGraph
  | [] => ([], g)
  | bd :: rest =>
    let step := processScene g bd
    let next := runScenes step.2 rest
    (step.1 :: next.1, next.2)

theorem assocSAppend_keyfix {α : Type} (k k' : String) (v : α) :
    ((fun (p : String × List α) => p.1 == k') ∘
      (fun p => if p.1 == k then (p.1, p.2 ++ [v]) else p)) =
    (fun p => p.1 == k') := by
  funext q
  by_cases hq : q.1 = k
  · have hif : (if (q.1 == k) = true then (q.1, q.2 ++ [v]) else q) =
        (q.1, q.2 ++ [v]) := if_pos (by simp [hq])
    simp only [Function.comp_apply, hif]
  · have hif : (if (q.1 == k) = true then (q.1, q.2 ++ [v]) else q) = q :=
      if_neg (by simp [hq])
    simp only [Function.comp_apply, hif]

theorem assocSGet_append_self {α : Type} (l : List (String × List α))
    (k : String) (v : α) :
    assocSGet (assocSAppend l k v) k =
      some ((assocSGet l k).getD [] ++ [v]) := by
  by_cases hany : (l.any (fun p => p.1 == k)) = true
  · simp only [assocSAppend, hany, if_true, assocSGet, List.find?_map,
      assocSAppend_keyfix]
    rcases List.any_eq_true.mp hany with ⟨p, hp, hpk⟩
    have hsome : (l.find? (fun p => p.1 == k)).isSome := by
      rw [List.find?_isSome]
      exact ⟨p, hp, hpk⟩
    rcases hf : l.find? (fun p => p.1 == k) with _ | p0
    · rw [hf] at hsome
      simp at hsome
    · have hp0 : p0.1 = k := by simpa using List.find?_some hf
      simp [hf]
      rw [if_pos hp0]
  · have hany' : (l.any (fun p => p.1 == k)) = false :=
      Bool.not_eq_true _ |>.mp hany
    have hnone : l.find? (fun p => p.1 == k) = none := by
      apply List.find?_eq_none.mpr
      intro p hp
      intro hcon
      rw [List.any_eq_true] at hany
      exact hany ⟨p, hp, hcon⟩
    simp only [assocSAppend, hany', Bool.false_eq_true, if_false, assocSGet]
    rw [find?_append_none _ _ _ hnone]
    simp [List.find?, hnone]

theorem assocSGet_append_ne {α : Type} (l : List (String × List α))
    (k k' : String) (v : α) (h : k' ≠ k) :
    assocSGet (assocSAppend l k v) k' = assocSGet l k' := by
  by_cases hany : (l.any (fun p => p.1 == k)) = true
  · simp only [assocSAppend, hany, if_true, assocSGet, List.find?_map,
      assocSAppend_keyfix]
    rcases hf : l.find? (fun p => p.1 == k') with _ | p0
    · simp [hf]
    · have hp0 : p0.1 = k' := by simpa using List.find?_some hf
      have hne2 : ¬ p0.1 = k := by rw [hp0]; exact h
      simp [hf]
      rw [if_neg hne2]
  · have hany' : (l.any (fun p => p.1 == k)) = false :=
      Bool.not_eq_true _ |>.mp hany
    simp only [assocSAppend, hany', Bool.false_eq_true, if_false, assocSGet]
    rcases hf : l.find? (fun p => p.1 == k') with _ | p0
    · rw [find?_append_none _ _ _ hf]
      have hk : (((k, [v]) : String × List α).1 == k') = false := by
        simp
        exact fun hcon => h hcon.symm
      simp [List.find?, hk, hf]
    · rw [find?_append_some _ _ _ _ hf]
      simp [hf]

theorem tlAdd_mem (v : CEntry) :
    ∀ (cast : List String) (acc : List (String × List CEntry)) (ch : String)
      (es : List CEntry) (e : CEntry),
      assocSGet (tlAdd acc cast v) ch = some es → e ∈ es →
      (∃ es₀, assocSGet acc ch = some es₀ ∧ e ∈ es₀) ∨
        (e = v ∧ ch ∈ cast) := by
  intro cast
  induction cast with
  | nil =>
    intro acc ch es e hget he
    exact Or.inl ⟨es, hget, he⟩
  | cons c cs ih =>
    intro acc ch es e hget he
    rcases ih (assocSAppend acc c v) ch es e hget he with ⟨es₀, hg0, he0⟩ | ⟨rfl, hc⟩
    · by_cases hch : ch = c
      · subst hch
        rw [assocSGet_append_self] at hg0
        injection hg0 with hes
        subst hes
        rcases List.mem_append.mp he0 with h1 | h1
        · rcases hg : assocSGet acc ch with _ | es1
          · rw [hg] at h1
            simp at h1
          · rw [hg] at h1
            exact Or.inl ⟨es1, rfl, h1⟩
        · exact Or.inr ⟨List.mem_singleton.mp h1, List.mem_cons_self ch cs⟩
      · rw [assocSGet_append_ne _ _ _ _ hch] at hg0
        exact Or.inl ⟨es₀, hg0, he0⟩
    · exact Or.inr ⟨rfl, List.mem_cons_of_mem c hc⟩

theorem tlAdd_mono (v : CEntry) :
    ∀ (cast : List String) (acc : List (String × List CEntry)) (ch : String)
      (es : List CEntry) (e : CEntry),
      assocSGet acc ch = some es → e ∈ es →
      ∃ es', assocSGet (tlAdd acc cast v) ch = some es' ∧ e ∈ es' := by
  intro cast
  induction cast with
  | nil =>
    intro acc ch es e hget he
    exact ⟨es, hget, he⟩
  | cons c cs ih =>
    intro acc ch es e hget he
    by_cases hch : ch = c
    · subst hch
      refine ih (assocSAppend acc ch v) ch ((assocSGet acc ch).getD [] ++ [v])
        e (assocSGet_append_self _ _ _) ?_
      rw [hget]
      exact List.mem_append.mpr (Or.inl he)
    · exact ih (assocSAppend acc c v) ch es e
        (by rw [assocSGet_append_ne _ _ _ _ hch]; exact hget) he

theorem tlAdd_present (v : CEntry) :
    ∀ (cast : List String) (acc : List (String × List CEntry)) (ch : String),
      ch ∈ cast →
      ∃ es, assocSGet (tlAdd acc cast v) ch = some es ∧ v ∈ es := by
  intro cast
  induction cast with
  | nil =>
    intro acc ch h
    exact absurd h (List.not_mem_nil ch)
  | cons c cs ih =>
    intro acc ch h
    rcases List.mem_cons.mp h with rfl | hcs
    · exact tlAdd_mono v cs (assocSAppend acc ch v) ch _ v
        (assocSGet_append_self _ _ _) (List.mem_append.mpr (Or.inr
          (List.mem_singleton.mpr rfl)))
    · exact ih (assocSAppend acc c v) ch hcs

theorem recentFold_mem (tl : List (String × List CEntry)) :
    ∀ (chars : List String) (acc : List CEntry) (e : CEntry),
      e ∈ recentFold tl chars acc →
      e ∈ acc ∨ ∃ c ∈ chars, ∃ es, assocSGet tl c = some es ∧
        e ∈ lastN 3 es := by
  intro chars
  induction chars with
  | nil => intro acc e he; exact Or.inl he
  | cons c cs ih =>
    intro acc e he
    simp only [recentFold, List.foldl_cons] at he
    rcases hg : assocSGet tl c with _ | es
    · rw [hg] at he
      rcases ih acc e he with h | ⟨c', hc', h⟩
      · exact Or.inl h
      · exact Or.inr ⟨c', List.mem_cons_of_mem c hc', h⟩
    · rw [hg] at he
      rcases ih (acc ++ lastN 3 es) e he with h | ⟨c', hc', h⟩
      · rcases List.mem_append.mp h with h1 | h1
        · exact Or.inl h1
        · exact Or.inr ⟨c, List.mem_cons_self c cs, es, hg, h1⟩
      · exact Or.inr ⟨c', List.mem_cons_of_mem c hc', h⟩

theorem recentFold_acc (tl : List (String × List CEntry)) :
    ∀ (chars : List String) (acc : List CEntry),
      recentFold tl chars acc = acc ++ recentFold tl chars [] := by
  intro chars
  induction chars with
  | nil => intro acc; simp [recentFold]
  | cons c cs ih =>
    intro acc
    simp only [recentFold, List.foldl_cons]
    rcases hg : assocSGet tl c with _ | es
    · exact ih acc
    · show recentFold tl cs (acc ++ lastN 3 es) =
        acc ++ recentFold tl cs ([] ++ lastN 3 es)
      rw [ih (acc ++ lastN 3 es), ih ([] ++ lastN 3 es)]
      simp [List.append_assoc]

theorem recentFold_ne_nil (tl : List (String × List CEntry)) (chars : List String)
    (c : String) (es : List CEntry) (hc : c ∈ chars)
    (hg : assocSGet tl c = some es) (hne : es ≠ []) :
    recentFold tl chars [] ≠ [] := by
  induction chars with
  | nil => exact absurd hc (List.not_mem_nil c)
  | cons c0 cs ih =>
    simp only [recentFold, List.foldl_cons]
    rcases List.mem_cons.mp hc with rfl | hcs
    · rw [hg]
      show recentFold tl cs ([] ++ lastN 3 es) ≠ []
      rw [recentFold_acc tl cs ([] ++ lastN 3 es)]
      intro hcon
      rcases List.append_eq_nil.mp hcon with ⟨h1, _⟩
      have : (lastN 3 es).length = 0 := by
        simpa using congrArg List.length h1
      rw [lastN, List.length_drop] at this
      rcases es with _ | ⟨x, xs⟩
      · exact hne rfl
      · simp at this
        omega
    · rcases hg0 : assocSGet tl c0 with _ | es0
      · exact ih hcs
      · show recentFold tl cs ([] ++ lastN 3 es0) ≠ []
        rw [recentFold_acc tl cs ([] ++ lastN 3 es0)]
        intro hcon
        rcases List.append_eq_nil.mp hcon with ⟨_, h2⟩
        exact ih hcs h2

theorem firstDedup_mem (l : List String) (x : String) (hx : x ∈ l) :
    x ∈ firstDedup l := by
  have grow : ∀ (l : List String) (acc : List String), x ∈ acc →
      x ∈ l.foldl (fun acc y => if y ∈ acc then acc else acc ++ [y]) acc := by
    intro l
    induction l with
    | nil => intro acc h; exact h
    | cons a rest ih =>
      intro acc h
      rw [List.foldl_cons]
      apply ih
      split
      · exact h
      · exact List.mem_append.mpr (Or.inl h)
  have main : ∀ (l : List String) (acc : List String), x ∈ l →
      x ∈ l.foldl (fun acc y => if y ∈ acc then acc else acc ++ [y]) acc := by
    intro l
    induction l with
    | nil => intro acc h; exact absurd h (List.not_mem_nil x)
    | cons a rest ih =>
      intro acc h
      rw [List.foldl_cons]
      rcases List.mem_cons.mp h with rfl | hr
      · apply grow
        split
        · assumption
        · exact List.mem_append.mpr (Or.inr (List.mem_singleton.mpr rfl))
      · exact ih _ hr
  exact main l [] hx

theorem lastN_subset (n : Nat) (l : List α) (x : α) (hx : x ∈ lastN n l) :
    x ∈ l := List.mem_of_mem_drop hx

/-- The timeline invariant: every timeline entry of the graph built from
`prev` is the registration entry of some scene of `prev` that lists the
character in its cast. -/
def TimelineInv (tl : List (String × List CEntry)) (prev : List CBD) : Prop :=
  ∀ ch es e, assocSGet tl ch = some es → e ∈ es →
    ∃ p ∈ prev, e = mkEntry p ∧ ch ∈ p.cast

theorem timelineInv_nil : TimelineInv cgEmpty.characterTimeline [] := by
  intro ch es e hget _
  simp [cgEmpty, assocSGet, List.find?] at hget

theorem timelineInv_register (g : CGraph) (prev : List CBD) (bd : CBD)
    (h : TimelineInv g.characterTimeline prev) :
    TimelineInv (registerScene g bd).characterTimeline (prev ++ [bd]) := by
  intro ch es e hget he
  rcases tlAdd_mem (mkEntry bd) bd.cast g.characterTimeline ch es e hget he
    with ⟨es₀, hg0, he0⟩ | ⟨rfl, hc⟩
  · rcases h ch es₀ e hg0 he0 with ⟨p, hp, hpe⟩
    exact ⟨p, List.mem_append.mpr (Or.inl hp), hpe⟩
  · exact ⟨bd, List.mem_append.mpr (Or.inr (List.mem_singleton.mpr rfl)),
      rfl, hc⟩

theorem timelineInv_fold :
    ∀ (prev : List CBD) (g : CGraph) (prev₀ : List CBD),
      TimelineInv g.characterTimeline prev₀ →
      TimelineInv (prev.foldl registerScene g).characterTimeline
        (prev₀ ++ prev) := by
  intro prev
  induction prev with
  | nil => intro g prev₀ h; simpa using h
  | cons p ps ih =>
    intro g prev₀ h
    rw [List.foldl_cons]
    have h2 := ih (registerScene g p) (prev₀ ++ [p]) (timelineInv_register g prev₀ p h)
    simpa [List.append_assoc] using h2

/-- Soundness of `detect_continuation` over any processed prefix: a
returned scene number belongs to a previously registered scene that
matches the current location and time of day and shares a cast member. -/
theorem detect_sound (prev : List CBD) (bd : CBD) (r : String)
    (h : detectContinuation (prev.foldl registerScene cgEmpty) bd = some r) :
    ∃ p ∈ prev, p.sceneNumber = r ∧ p.location = bd.location ∧
      p.dayNight = bd.dayNight ∧ ∃ c, c ∈ p.cast ∧ c ∈ bd.cast := by
  simp only [detectContinuation] at h
  rcases Option.map_eq_some'.mp h with ⟨e, hfind, hscene⟩
  have hpred := List.find?_some hfind
  have hmem := List.mem_of_find?_eq_some hfind
  rw [List.mem_reverse] at hmem
  rcases recentFold_mem _ _ _ _ hmem with h1 | ⟨c, hc, es, hg, hlast⟩
  · exact absurd h1 (List.not_mem_nil e)
  have he : e ∈ es := lastN_subset 3 es e hlast
  have hinv : TimelineInv ((prev.foldl registerScene cgEmpty).characterTimeline)
      prev := by
    have := timelineInv_fold prev cgEmpty [] timelineInv_nil
    simpa using this
  rcases hinv c es e hg he with ⟨p, hp, hpe, hpc⟩
  refine ⟨p, hp, ?_, ?_, ?_, c, hpc, firstDedup_sub _ _ hc⟩
  · rw [← hscene, hpe]
    rfl
  · have h1 : (e.location == bd.location) = true :=
      (Bool.and_eq_true _ _ |>.mp hpred).1
    rw [hpe] at h1
    simpa [mkEntry] using h1
  · have h2 : (e.time == bd.dayNight) = true :=
      (Bool.and_eq_true _ _ |>.mp hpred).2
    rw [hpe] at h2
    simpa [mkEntry] using h2

theorem register_single_inv (s1 : CBD) :
    TimelineInv (registerScene cgEmpty s1).characterTimeline [s1] := by
  have := timelineInv_register cgEmpty [] s1 timelineInv_nil
  simpa using this

theorem recent_single_all (s1 : CBD) (chars : List String) :
    ∀ e ∈ recentFold (registerScene cgEmpty s1).characterTimeline chars [],
      e = mkEntry s1 := by
  intro e he
  rcases recentFold_mem _ _ _ _ he with h | ⟨c', _, es', hg', hl⟩
  · exact absurd h (List.not_mem_nil e)
  · rcases register_single_inv s1 c' es' e hg' (lastN_subset 3 es' e hl) with
      ⟨p, hp, hpe, _⟩
    rw [List.mem_singleton.mp hp] at hpe
    exact hpe

theorem detect_two_scene (s1 s2 : CBD) (c : String) (hc1 : c ∈ s1.cast)
    (hc2 : c ∈ s2.cast) (hloc : s1.location = s2.location)
    (htime : s1.dayNight = s2.dayNight) :
    detectContinuation (registerScene cgEmpty s1) s2 =
      some s1.sceneNumber := by
  simp only [detectContinuation]
  rcases tlAdd_present (mkEntry s1) s1.cast cgEmpty.characterTimeline c hc1
    with ⟨es, hg, hv⟩
  have hesne : es ≠ [] := by
    intro hcon
    rw [hcon] at hv
    exact List.not_mem_nil _ hv
  have hchars : c ∈ firstDedup s2.cast := firstDedup_mem _ _ hc2
  have hrne : recentFold (registerScene cgEmpty s1).characterTimeline
      (firstDedup s2.cast) [] ≠ [] :=
    recentFold_ne_nil _ _ c es hchars hg hesne
  rcases hrec : (recentFold (registerScene cgEmpty s1).characterTimeline
      (firstDedup s2.cast) []).reverse with _ | ⟨e0, rest⟩
  · exact absurd (List.reverse_eq_nil_iff.mp hrec) hrne
  · have he0 : e0 = mkEntry s1 := by
      apply recent_single_all s1 (firstDedup s2.cast) e0
      rw [← List.mem_reverse, hrec]
      exact List.mem_cons_self e0 rest
    have hb : (s1.location == s2.location && s1.dayNight == s2.dayNight) =
        true := by
      simp [hloc, htime]
    simp [List.find?, he0, mkEntry, hb]

theorem detect_loc_changed (s1 s2 : CBD) (hne : s2.location ≠ s1.location) :
    detectContinuation (registerScene cgEmpty s1) s2 = none := by
  simp only [detectContinuation]
  have hnone : ((recentFold (registerScene cgEmpty s1).characterTimeline
      (firstDedup s2.cast) []).reverse.find?
        (fun e => e.location == s2.location && e.time == s2.dayNight)) =
      none := by
    apply List.find?_eq_none.mpr
    intro e he
    rw [List.mem_reverse] at he
    have he0 := recent_single_all s1 (firstDedup s2.cast) e he
    rw [he0]
    have hfl : ((mkEntry s1).location == s2.location) = false := by
      simp [mkEntry]
      exact fun hcon => hne hcon.symm
    intro hcon
    rw [Bool.and_eq_true] at hcon
    rw [hfl] at hcon
    exact Bool.noConfusion hcon.1
  rw [hnone]
  rfl

theorem processScene_snd (g : CGraph) (bd : CBD) :
    (processScene g bd).2 = registerScene g bd := rfl

theorem runScenes_state (xs : List CBD) :
    ∀ g, (runScenes g xs).2 = xs.foldl registerScene g := by
  induction xs with
  | nil => intro g; rfl
  | cons bd rest ih =>
    intro g
    simp only [runScenes, List.foldl_cons]
    exact ih (registerScene g bd)

theorem runScenes_len (xs : List CBD) :
    ∀ g, (runScenes g xs).1.length = xs.length := by
  induction xs with
  | nil => intro g; rfl
  | cons bd rest ih =>
    intro g
    simp only [runScenes, List.length_cons, processScene_snd]
    rw [ih (registerScene g bd)]

theorem runScenes_split (pre : List CBD) (bd : CBD) (post : List CBD) :
    ∀ g, (runScenes g (pre ++ bd :: post)).1 =
      (runScenes g pre).1 ++
        (processScene (pre.foldl registerScene g) bd).1 ::
          (runScenes (registerScene (pre.foldl registerScene g) bd) post).1 := by
  induction pre with
  | nil =>
    intro g
    simp only [List.nil_append, List.foldl_nil, runScenes, processScene_snd]
  | cons p ps ih =>
    intro g
    simp only [List.cons_append, runScenes, List.foldl_cons, processScene_snd,
      List.append_eq]
    rw [ih (registerScene g p)]

/-- The concrete scenes of the C6 counterexample. -/
def cb1 : CBD := ⟨"1", "نهار", "مقهى", ["ب"], [], ""⟩

/-- Second registered scene; shares location, time, and a cast member
with `cb3` and is the most recent such scene. -/
def cb2 : CBD := ⟨"2", "نهار", "مقهى", ["أ"], [], ""⟩

/-- The current scene of the C6 counterexample. -/
def cb3 : CBD := ⟨"3", "نهار", "مقهى", ["أ", "ب"], [], ""⟩

/-- C6 counterexample: scene "2" is the most recent prior scene sharing
location, time of day, and a cast member with scene "3" (it was
registered after scene "1"), but `detect_continuation` returns "1": the
scan walks the reversed concatenation of the cast members' recent
entries, so the later cast member's older entry is found first.  The
claimed most-recent behavior is false. -/
theorem detectContinuation_not_most_recent :
    detectContinuation ([cb1, cb2].foldl registerScene cgEmpty) cb3 =
      some "1" ∧
    cb2.location = cb3.location ∧ cb2.dayNight = cb3.dayNight ∧
    "أ" ∈ cb2.cast ∧ "أ" ∈ cb3.cast ∧
    detectContinuation ([cb1, cb2].foldl registerScene cgEmpty) cb3 ≠
      some "2" := by
  refine ⟨by decide, by decide, by decide, by decide, by decide, by decide⟩

/-- C6 (amended): `detect_continuation` returns the scene of the first
matching entry of the scan (not, in general, the most recent matching
scene).  What holds: (1) soundness — a returned number always belongs to
a previously registered scene with the same location and time of day and
a shared cast member; (2) with a single prior scene sharing a cast
member, the same location and time of day yield that earlier scene's
number; (3) changing the location of the second scene yields none. -/
theorem detectContinuation_characterization :
    (∀ (prev : List CBD) (bd : CBD) (r : String),
      detectContinuation (prev.foldl registerScene cgEmpty) bd = some r →
      ∃ p ∈ prev, p.sceneNumber = r ∧ p.location = bd.location ∧
        p.dayNight = bd.dayNight ∧ ∃ c, c ∈ p.cast ∧ c ∈ bd.cast) ∧
    (∀ (s1 s2 : CBD) (c : String), c ∈ s1.cast → c ∈ s2.cast →
      s1.location = s2.location → s1.dayNight = s2.dayNight →
      detectContinuation (registerScene cgEmpty s1) s2 =
        some s1.sceneNumber) ∧
    (∀ s1 s2 : CBD, s2.location ≠ s1.location →
      detectContinuation (registerScene cgEmpty s1) s2 = none) :=
  ⟨detect_sound, detect_two_scene, detect_loc_changed⟩

/-- Scenes used by the C6 and C10 witnesses. -/
def cbW1 : CBD := ⟨"10", "ليل", "بيت", ["بطل"], [], ""⟩

/-- Same location and time as `cbW1`, shared cast member. -/
def cbW2 : CBD := ⟨"11", "ليل", "بيت", ["بطل"], [], ""⟩

/-- Same as `cbW2` but at a different location. -/
def cbW3 : CBD := ⟨"12", "ليل", "شارع", ["بطل"], [], ""⟩

/-- Witness for C6: the two concrete checks of the claim. -/
theorem detectContinuation_characterization_witness :
    detectContinuation (registerScene cgEmpty cbW1) cbW2 = some "10" ∧
    detectContinuation (registerScene cgEmpty cbW1) cbW3 = none :=
  ⟨detectContinuation_characterization.2.1 cbW1 cbW2 "بطل" (by decide)
      (by decide) (by decide) (by decide),
   detectContinuation_characterization.2.2 cbW1 cbW3 (by decide)⟩

/-- C10: in `analyze_scene`, pass 3 (continuation detection and
continuity notes) is evaluated on the graph state BEFORE the scene is
registered: the scene at position `pre.length` of a run is paired with
the detection result over exactly the previously processed scenes; a
returned reference always names a strictly earlier-processed scene, so a
scene whose number is not among the earlier ones is never reported as a
continuation of itself. -/
theorem detect_before_register (pre : List CBD) (bd : CBD) (post : List CBD) :
    ((runScenes cgEmpty (pre ++ bd :: post)).1.get? pre.length =
      some (bd.sceneNumber,
        detectContinuation (pre.foldl registerScene cgEmpty) bd,
        continuityNotes (pre.foldl registerScene cgEmpty) bd)) ∧
    (∀ r, detectContinuation (pre.foldl registerScene cgEmpty) bd = some r →
      r ∈ pre.map (fun p => p.sceneNumber)) ∧
    (bd.sceneNumber ∉ pre.map (fun p => p.sceneNumber) →
      detectContinuation (pre.foldl registerScene cgEmpty) bd ≠
        some bd.sceneNumber) := by
  have hsound : ∀ r,
      detectContinuation (pre.foldl registerScene cgEmpty) bd = some r →
      r ∈ pre.map (fun p => p.sceneNumber) := by
    intro r h
    rcases detect_sound pre bd r h with ⟨p, hp, hnum, _⟩
    rw [← hnum]
    exact List.mem_map_of_mem _ hp
  refine ⟨?_, hsound, ?_⟩
  · rw [runScenes_split pre bd post cgEmpty]
    rw [List.get?_append_right (by rw [runScenes_len])]
    rw [runScenes_len]
    simp [processScene]
  · intro hnot hcon
    exact hnot (hsound bd.sceneNumber hcon)

/-- Witness for C10: with one prior scene numbered "10", the detection
for scene "11" cannot return "11". -/
theorem detect_before_register_witness :
    detectContinuation ([cbW1].foldl registerScene cgEmpty) cbW2 ≠
      some cbW2.sceneNumber :=
  (detect_before_register [cbW1] cbW2 []).2.2 (by decide)

/-!
## Batch loop of `main_async` (src/ultimate_breakdown_system.py)

The loop walks the split scenes, calls `parser.analyze_scene` on each,
appends the breakdown on success, and on an exception logs the error and
continues with the next scene block.  The analyzer is modelled as an
arbitrary fallible state function (the parser state is the continuity
graph); an exception leaves the graph unchanged because `analyze_scene`
mutates it only in its final `register_scene` call. -/

/-- The `main_async` scene loop: try each scene with the current state,
keep the breakdown and the new state on success, keep the old state and
continue on failure. -/
def runBatch {σ β γ : Type} (f : σ → γ → Option (β × σ)) (s : σ) :
    List γ → List β × σ
  | [] => ([], s)
  | x :: rest =>
    match f s x with
    | none => runBatch f s rest
    | some (b, s2) =>
      let next := runBatch f s2 rest
      (b :: next.1, next.2)

theorem runBatch_append {σ β γ : Type} (f : σ → γ → Option (β × σ)) :
    ∀ (xs ys : List γ) (s : σ),
      runBatch f s (xs ++ ys) =
        ((runBatch f s xs).1 ++ (runBatch f (runBatch f s xs).2 ys).1,
         (runBatch f (runBatch f s xs).2 ys).2) := by
  intro xs
  induction xs with
  | nil => intro ys s; rfl
  | cons x rest ih =>
    intro ys s
    rcases hf : f s x with _ | ⟨b, s2⟩
    · simp only [List.cons_append, runBatch, hf, List.append_eq]
      exact ih ys s
    · simp only [List.cons_append, runBatch, hf, List.append_eq]
      rw [ih ys s2]

/-- C8: a failure while analyzing one scene does not halt the batch.
First conjunct: when the analyzer fails on scene `y` (reached with the
state accumulated over `pre`), the run over `pre ++ y :: post` equals the
run with `y` removed — the failing scene is skipped, the remaining scenes
are still processed from the same state.  Second conjunct: when the
analyzer succeeds on `y`, its breakdown appears in the output between the
breakdowns of `pre` and those of `post` — the output contains a record
for every scene whose analysis succeeded, in order. -/
theorem runBatch_skips_failed_scene {σ β γ : Type}
    (f : σ → γ → Option (β × σ)) (s : σ) (pre : List γ) (y : γ)
    (post : List γ) :
    (f (runBatch f s pre).2 y = none →
      runBatch f s (pre ++ y :: post) = runBatch f s (pre ++ post)) ∧
    (∀ (b : β) (s2 : σ), f (runBatch f s pre).2 y = some (b, s2) →
      (runBatch f s (pre ++ y :: post)).1 =
        (runBatch f s pre).1 ++ b :: (runBatch f s2 post).1) := by
  constructor
  · intro hfail
    rw [runBatch_append f pre (y :: post) s, runBatch_append f pre post s]
    simp only [runBatch, hfail]
  · intro b s2 hsucc
    rw [runBatch_append f pre (y :: post) s]
    simp only [runBatch, hsucc]

/-- Witness for C8: a concrete batch where the analyzer fails exactly on
the marked scene; the failing scene is skipped and the last scene still
produces its record. -/
theorem runBatch_skips_failed_scene_witness :
    (runBatch (fun (s : Nat) (x : Nat) =>
        if x = 0 then none else some (x + s, s + 1)) 0 ([1] ++ 0 :: [2]) =
      runBatch (fun (s : Nat) (x : Nat) =>
        if x = 0 then none else some (x + s, s + 1)) 0 ([1] ++ [2])) ∧
    (runBatch (fun (s : Nat) (x : Nat) =>
        if x = 0 then none else some (x + s, s + 1)) 0 ([1] ++ 0 :: [2])).1 =
      [1, 3] := by
  constructor
  · exact (runBatch_skips_failed_scene
      (fun (s : Nat) (x : Nat) => if x = 0 then none else some (x + s, s + 1))
      0 [1] 0 [2]).1 (by decide)
  · decide

/-- Witness for C1: the amended statement at a concrete document. -/
theorem splitScenes_textual_order_witness :
    ((splitScenesLines ["مشهد 2", "نص", "مشهد 1"]).map (fun b => b.1) =
      ["مشهد 2", "نص", "مشهد 1"].filterMap markerParse) ∧
    ((splitScenesLines ["مشهد 2", "نص", "مشهد 1"]).length =
      (["مشهد 2", "نص", "مشهد 1"].filter isMarkerLine).length) :=
  splitScenes_textual_order ["مشهد 2", "نص", "مشهد 1"]

/-- Witness for C3: the concrete dequeue order for weights [2, 5, 2, 5]. -/
theorem jobQueue_priority_order_witness :
    (submitAll 0 [cjReq "j1" JPriority.normal, cjReq "j2" JPriority.critical,
        cjReq "j3" JPriority.normal, cjReq "j4" JPriority.critical]
      (jmInit 10)).jobQueue = [1, 3, 0, 2] :=
  (jobQueue_priority_order 0 []).2.1

set_option maxHeartbeats 1000000 in
/-- Witness for C7: a concrete header has a nonempty location. -/
theorem headerLocation_result_witness :
    (parseHeaderTriple "مشهد 3 - خارجي - ليل" "نص").2.2 ≠ "" :=
  (headerLocation_result "مشهد 3 - خارجي - ليل" "نص").1
